import Mathlib

/-
Verification of the retrieval and embedding-orchestration subsystem of the
Enterprise-RAG-System repository.

The Python services are embedded shallowly:

* `backend/app/services/vector_store.py` — in-memory search paths, multi-query
  merge, delete-by-source (`VectorStoreService`).
* `backend/app/services/hybrid_rag_service.py` — BM25 tokenizer, lexical and
  semantic branches, hybrid score fusion (`HybridRAGService`).
* `backend/app/services/api_rotation.py` — credential status tracking and the
  rotation scan (`GeminiAPIRotationService`).
* `backend/app/services/embeddings.py` — provider fallback chain, hash
  fallback embedding, single-query routing (`EmbeddingsService`).

Modelling conventions: float scores become `ℚ`; the numpy cosine similarity,
the rank_bm25 scorer, the sentence-transformer models and hashlib's sha256 are
external dependencies of the code and are passed in as explicit function
parameters; timestamps are natural numbers (hours), so the cool-down
comparison `now - last_error_time > timedelta(hours=24)` becomes
`t + 24 < now`.  `dict` values keyed by insertion order are association lists
that preserve first-insertion order.  Python's stable `list.sort(reverse=True)`
is modelled by a stable insertion sort, `sortByDesc`, that places an element
after all earlier elements of greater-or-equal key, which produces the same
list as any stable descending sort.
-/

namespace RAG

/-- Python's builtin `max(a, b)`: returns the first argument when they compare
equal. -/
def pymax (a b : ℚ) : ℚ := if b ≤ a then a else b

/-- Python's builtin `min(a, b)`: returns the first argument when they compare
equal. -/
def pymin (a b : ℚ) : ℚ := if a ≤ b then a else b

/-- Insert `a` into `l` after every element whose key is greater or equal:
the insertion step of a stable descending sort. -/
def insDesc (key : α → ℚ) (a : α) : List α → List α
  | [] => [a]
  | b :: bs => if key b < key a then a :: b :: bs else b :: insDesc key a bs

/-- Stable descending sort by `key`, modelling Python's
`list.sort(key=..., reverse=True)` (equal keys keep their original order). -/
def sortByDesc (key : α → ℚ) (l : List α) : List α :=
  l.foldl (fun acc a => insDesc key a acc) []

/-- Non-increasing-key order: the sortedness predicate a stable descending
sort establishes. -/
def keyDescRel (key : α → ℚ) : α → α → Prop := fun p q => key q ≤ key p

/-- Lookup in a Python dict modelled as an insertion-ordered association
list (`d.get(k)` semantics: `none` when the key is absent). -/
def metaGet (meta : List (String × String)) (k : String) : Option String :=
  meta.lookup k

/-- One entry of `VectorStoreService.in_memory_vectors` (and, with the same
shape, one document of the ChromaDB collection): an id, an embedding and a
metadata dict. -/
structure MemVec where
  id : String
  embedding : List ℚ
  metadata : List (String × String)
deriving DecidableEq, Repr

/-- One element of the list returned by the search methods of
`VectorStoreService` (the `page` and nested `metadata` fields are dropped:
no claim mentions them). -/
structure SearchResult where
  id : String
  content : String
  source : String
  score : ℚ
deriving DecidableEq, Repr

/-- Result row built by the in-memory branch of
`VectorStoreService.search_similar_documents` (metadata defaults
`content -> ""`, `source -> "unknown"`). -/
def mkMemResult (v : MemVec) (score : ℚ) : SearchResult :=
  { id := v.id
    content := (metaGet v.metadata "content").getD ""
    source := (metaGet v.metadata "source").getD "unknown"
    score := score }

/-- The metadata filter loop of `search_similar_documents`: every
`(key, value)` pair of `filter_metadata` must match the chunk's metadata. -/
def metadataMatches (meta : List (String × String)) (filt : List (String × String)) : Bool :=
  filt.all (fun kv => metaGet meta kv.1 == some kv.2)

/-- In-memory branch of `VectorStoreService.search_similar_documents`
(vector_store.py lines 600-653).  `sim` is the numpy-backed
`cosine_similarity`; chunks whose embedding length differs from the query's
are skipped before scoring, then the metadata filter and the similarity
threshold are applied, and the surviving rows are sorted by score
(descending, stable) and truncated to `top_k`. -/
def search_similar_documents (sim : List ℚ → List ℚ → ℚ) (store : List MemVec)
    (query_embedding : List ℚ) (top_k : ℕ) (filter_metadata : List (String × String))
    (similarity_threshold : ℚ) : List SearchResult :=
  let similar_docs := store.filterMap (fun v =>
    if v.embedding.length ≠ query_embedding.length then none
    else if ¬ metadataMatches v.metadata filter_metadata then none
    else
      let s := sim query_embedding v.embedding
      if similarity_threshold ≤ s then some (mkMemResult v s) else none)
  (sortByDesc (fun r => r.score) similar_docs).take top_k

/-- Result row built by
`VectorStoreService.search_similar_documents_with_source_filter`
(source defaults to `""` there, unlike the plain search). -/
def mkSourceFilterResult (v : MemVec) (score : ℚ) : SearchResult :=
  { id := v.id
    content := (metaGet v.metadata "content").getD ""
    source := (metaGet v.metadata "source").getD ""
    score := score }

/-- In-memory branch of
`VectorStoreService.search_similar_documents_with_source_filter`
(vector_store.py lines 1056-1127): keep only chunks whose embedding length
equals the query's, optionally narrow to a preferred source, score all
survivors, sort descending, filter by the threshold (with the adaptive
lowering when fewer than 3 rows pass), and truncate to `top_k`. -/
def search_similar_documents_with_source_filter (sim : List ℚ → List ℚ → ℚ)
    (store : List MemVec) (query_embedding : List ℚ) (preferred_source : Option String)
    (top_k : ℕ) (similarity_threshold : ℚ) : List SearchResult :=
  if store.isEmpty then []
  else
    let compatible0 := store.filter (fun d => d.embedding.length == query_embedding.length)
    let compatible : List MemVec :=
      match preferred_source with
      | some p =>
          if p ≠ "" ∧ compatible0.any (fun d => ((metaGet d.metadata "source").getD "").startsWith p)
          then compatible0.filter (fun d => ((metaGet d.metadata "source").getD "").startsWith p)
          else compatible0
      | none => compatible0
    if compatible.isEmpty then []
    else
      let similarities := compatible.map (fun d => mkSourceFilterResult d (sim query_embedding d.embedding))
      let sorted := sortByDesc (fun r => r.score) similarities
      let filtered := sorted.filter (fun r => similarity_threshold ≤ r.score)
      let filtered :=
        if filtered.length < 3 ∧ (1 : ℚ)/20 < similarity_threshold
        then sorted.filter (fun r => pymax ((1 : ℚ)/20) (similarity_threshold - 1/10) ≤ r.score)
        else filtered
      filtered.take top_k

/-- One entry of the `all_results` dict of
`VectorStoreService.search_similar_documents_multi_query`: a search result
plus the `multi_match` flag the merge adds. -/
structure MQResult where
  id : String
  content : String
  source : String
  score : ℚ
  multi_match : Bool
deriving DecidableEq, Repr

/-- Merge one per-variant result into `all_results`
(vector_store.py lines 452-462): a first occurrence of a document id is
stored with `multi_match = false`; a repeated occurrence boosts the stored
entry to `min(1.0, max(existing, new) + 0.1)` and flags it
`multi_match = true`. -/
def multiQueryMergeStep (acc : List MQResult) (r : SearchResult) : List MQResult :=
  if acc.any (fun m => m.id == r.id) then
    acc.map (fun m =>
      if m.id == r.id then
        { m with score := pymin 1 (pymax m.score r.score + 1/10), multi_match := true }
      else m)
  else acc ++ [{ id := r.id, content := r.content, source := r.source,
                 score := r.score, multi_match := false }]

/-- The full `all_results` accumulation over every query variation's result
list, in order (the nested `for` loops of lines 442-462). -/
def multiQueryMergeAll (per_variant : List (List SearchResult)) : List MQResult :=
  per_variant.foldl (fun acc results => results.foldl multiQueryMergeStep acc) []

/-- Final stage of `search_similar_documents_multi_query`
(lines 464-470): sort the merged entries by score (descending, stable),
apply the final similarity threshold, and truncate to `top_k`. -/
def multiQueryFinal (per_variant : List (List SearchResult)) (top_k : ℕ)
    (similarity_threshold : ℚ) : List MQResult :=
  ((sortByDesc (fun r => r.score) (multiQueryMergeAll per_variant)).filter
    (fun r => similarity_threshold ≤ r.score)).take top_k

/-- `VectorStoreService.search_similar_documents_multi_query`
(vector_store.py lines 422-477): run the single-vector search once per query
embedding with `top_k * 2` and the lowered threshold
`max(0.15, similarity_threshold - 0.1)`, then merge, re-sort, threshold and
truncate. -/
def search_similar_documents_multi_query (sim : List ℚ → List ℚ → ℚ)
    (store : List MemVec) (query_embeddings : List (List ℚ)) (top_k : ℕ)
    (filter_metadata : List (String × String)) (similarity_threshold : ℚ) : List MQResult :=
  multiQueryFinal
    (query_embeddings.map (fun q =>
      search_similar_documents sim store q (top_k * 2) filter_metadata
        (pymax ((3 : ℚ)/20) (similarity_threshold - 1/10))))
    top_k similarity_threshold

/-- Lexicographic comparison of character lists by code point (an explicit,
computable rendering of string order for the claimed tie-break). -/
def charListLe : List Char → List Char → Bool
  | [], _ => true
  | _ :: _, [] => false
  | a :: as, b :: bs =>
      if a.toNat < b.toNat then true
      else if b.toNat < a.toNat then false
      else charListLe as bs

/-- String order by code points, used only to state the claimed tie-break. -/
def strLe (a b : String) : Bool := charListLe a.data b.data

/-- The ordering the specification claims for the multi-query merge: score
descending with the chunk id as tie-break.  Used only to compare the claimed
ordering with the one the code implements. -/
def specTieBreakLe (a b : MQResult) : Prop :=
  b.score < a.score ∨ (a.score = b.score ∧ strLe a.id b.id = true)

/-- Turkish stopword set of `HybridRAGService.turkish_stopwords`
(hybrid_rag_service.py lines 66-72), kept exactly as written in the source
(including entries containing Turkish characters). -/
def turkish_stopwords : List String :=
  ["ve", "ile", "bir", "bu", "şu", "o", "da", "de", "ta", "te",
   "ya", "ye", "dır", "dir", "dur", "dür", "tır", "tir", "tur", "tür",
   "mı", "mi", "mu", "mü", "için", "ancak", "lakin", "fakat", "ama",
   "veya", "yahut", "ki", "ne", "nasıl", "neden", "niçin", "nerede",
   "ne", "zaman", "hangi", "kaç", "kim", "kimin", "kimi", "kime"]

/-- Domain synonym table of `HybridRAGService.domain_synonyms`
(hybrid_rag_service.py lines 75-87). -/
def domain_synonyms : List (String × List String) :=
  [("kurye", ["kuryeci", "teslim", "dagitim", "kargo", "teslimat"]),
   ("sikayet", ["problem", "sorun", "memnuniyetsizlik", "rahatsizlik"]),
   ("personel", ["calisan", "eleman", "gorevli", "kisi"]),
   ("musteri", ["kullanici", "alici", "hesap"]),
   ("kart", ["kredi", "banka", "plastik"]),
   ("sistem", ["uygulama", "program", "platform"]),
   ("ip", ["internet", "adres", "baglanti", "erisim", "guvenlik", "ağ", "network"]),
   ("kisitlama", ["engel", "blok", "yasaklama", "sinir", "kontrol", "sınırlama"]),
   ("guvenlik", ["security", "koruma", "ip", "firewall", "erisim", "izin"]),
   ("erisim", ["access", "giris", "login", "baglanti", "ulaşim"]),
   ("ağ", ["network", "internet", "baglanti", "ip", "sistem"])]

/-- Lower-casing as `str.lower()` acts on the characters that occur in this
code path: ASCII letters plus the upper-case Turkish letters. -/
def pyLower (c : Char) : Char :=
  if 'A' ≤ c ∧ c ≤ 'Z' then Char.ofNat (c.toNat + 32)
  else if c = 'Ğ' then 'ğ'
  else if c = 'Ü' then 'ü'
  else if c = 'Ş' then 'ş'
  else if c = 'Ö' then 'ö'
  else if c = 'Ç' then 'ç'
  else if c = 'İ' then 'i'
  else if c = 'I' then 'ı'
  else c

/-- The chained `.replace` calls of `bm25_tokenizer`: normalize the six
lower-case Turkish characters to ASCII. -/
def turkishReplace (c : Char) : Char :=
  if c = 'ı' then 'i'
  else if c = 'ğ' then 'g'
  else if c = 'ü' then 'u'
  else if c = 'ş' then 's'
  else if c = 'ö' then 'o'
  else if c = 'ç' then 'c'
  else c

/-- A word character of the regex `\b\w+\b` on the normalized (ASCII) text. -/
def isWordChar (c : Char) : Bool :=
  c.isAlpha || c.isDigit || c == '_'

/-- Split a character list into maximal runs of word characters
(`re.findall(r'\b\w+\b', text)` on the normalized text).  `acc` holds the
current run in reverse. -/
def wordRunsAux (acc : List Char) : List Char → List String
  | [] => if acc.isEmpty then [] else [String.mk acc.reverse]
  | c :: cs =>
      if isWordChar c then wordRunsAux (c :: acc) cs
      else if acc.isEmpty then wordRunsAux [] cs
      else String.mk acc.reverse :: wordRunsAux [] cs

/-- Maximal word-character runs of a character list. -/
def wordRuns (cs : List Char) : List String := wordRunsAux [] cs

/-- `HybridRAGService.bm25_tokenizer` (hybrid_rag_service.py lines 89-115):
lower-case, normalize Turkish characters, split into word runs, drop tokens
of length at most 2 and stopwords, and append the domain synonyms of each
surviving token. -/
def bm25_tokenizer (text : String) : List String :=
  if text = "" then []
  else
    let normalized := (text.data.map pyLower).map turkishReplace
    let tokens := wordRuns normalized
    tokens.foldl (fun acc token =>
      if 2 < token.length ∧ ¬ turkish_stopwords.contains token then
        acc ++ token :: ((domain_synonyms.lookup token).getD [])
      else acc) []

/-- Mutable indexing state of `HybridRAGService`: the raw documents and ids
set by `index_documents`, the optional BM25 index (the external `BM25Okapi`
object is its `get_scores` closure) and the optional semantic embedding
matrix. -/
structure HybridState where
  documents : List String
  document_ids : List String
  bm25_index : Option (List String → List ℚ)
  semantic_embeddings : Option (List (List ℚ))

/-- `HybridRAGService.index_documents` (lines 117-156).  `bm25Lib` stands for
the `BM25Okapi` constructor of the external rank_bm25 library: it turns the
valid tokenized corpus into a scoring function.  `semModel` is the optional
sentence-transformer encoder (`None` when unavailable).  As in the source,
an empty document list leaves the previously stored indexes untouched. -/
def index_documents (bm25Lib : List (List String) → List String → List ℚ)
    (semModel : Option (List String → List (List ℚ))) (st : HybridState)
    (docs : List (String × String)) : HybridState :=
  let documents := docs.map (fun d => d.2)
  let document_ids := docs.map (fun d => d.1)
  let bm25_index :=
    if ¬ documents.isEmpty then
      let tokenized := documents.map bm25_tokenizer
      let valid := tokenized.filter (fun t => ¬ t.isEmpty)
      if ¬ valid.isEmpty then some (bm25Lib valid) else none
    else st.bm25_index
  let semantic_embeddings :=
    match semModel with
    | some enc => if ¬ documents.isEmpty then some (enc documents) else st.semantic_embeddings
    | none => st.semantic_embeddings
  { documents := documents, document_ids := document_ids,
    bm25_index := bm25_index, semantic_embeddings := semantic_embeddings }

/-- One candidate row of the hybrid engine, as produced by `search_bm25`,
`search_semantic` and the fusion loop (`hybrid_score` is added during
fusion; it is 0 before). -/
structure HybridResult where
  document_id : String
  content : String
  score : ℚ
  search_type : String
  hybrid_score : ℚ
deriving DecidableEq, Repr

/-- `HybridRAGService.search_bm25` (lines 158-188): empty when no BM25 index
exists or the query tokenizes to nothing; otherwise score the query tokens,
order indices by score descending, keep the first `top_k`, and emit only
rows with a strictly positive score. -/
def search_bm25 (st : HybridState) (query : String) (top_k : ℕ) : List HybridResult :=
  match st.bm25_index with
  | none => []
  | some get_scores =>
      let query_tokens := bm25_tokenizer query
      if query_tokens.isEmpty then []
      else
        let scores := get_scores query_tokens
        let top := (sortByDesc (fun p => p.2) scores.enum).take top_k
        top.filterMap (fun p =>
          if 0 < p.2 then
            some { document_id := st.document_ids.getD p.1 ""
                   content := st.documents.getD p.1 ""
                   score := p.2
                   search_type := "bm25"
                   hybrid_score := 0 }
          else none)

/-- `HybridRAGService.search_semantic` (lines 190-224).  `semModel` encodes
the query; `semSearch` stands for `sentence_transformers.util.semantic_search`
and yields `(corpus_id, score)` hits. -/
def search_semantic (st : HybridState) (semModel : Option (String → List ℚ))
    (semSearch : List ℚ → List (List ℚ) → ℕ → List (ℕ × ℚ))
    (query : String) (top_k : ℕ) : List HybridResult :=
  match semModel, st.semantic_embeddings with
  | some enc, some embs =>
      (semSearch (enc query) embs top_k).map (fun h =>
        { document_id := st.document_ids.getD h.1 ""
          content := st.documents.getD h.1 ""
          score := h.2
          search_type := "semantic"
          hybrid_score := 0 })
  | _, _ => []

/-- First fusion loop of `HybridRAGService.hybrid_search` (lines 279-283):
insert each BM25 row once, with `hybrid_score = score * 1.5`. -/
def hybridFuseBM25Step (acc : List HybridResult) (r : HybridResult) : List HybridResult :=
  if acc.any (fun m => m.document_id == r.document_id) then acc
  else acc ++ [{ r with hybrid_score := r.score * (3/2) }]

/-- Second fusion loop of `hybrid_search` (lines 286-295): a new document id
is inserted with its raw semantic score; a document already present takes
`max(existing_hybrid, semantic_score * 1.2)` and is re-typed `hybrid`. -/
def hybridFuseSemStep (acc : List HybridResult) (r : HybridResult) : List HybridResult :=
  if acc.any (fun m => m.document_id == r.document_id) then
    acc.map (fun m =>
      if m.document_id == r.document_id then
        { m with hybrid_score := pymax m.hybrid_score (r.score * (6/5)),
                 search_type := "hybrid" }
      else m)
  else acc ++ [{ r with hybrid_score := r.score }]

/-- The `combined_results` dict of `hybrid_search` after both fusion loops,
in insertion order. -/
def hybridCombine (bm25_results semantic_results : List HybridResult) : List HybridResult :=
  semantic_results.foldl hybridFuseSemStep (bm25_results.foldl hybridFuseBM25Step [])

/-- Combine-and-deduplicate stage of `hybrid_search` (lines 276-299): both
fusion loops followed by the stable descending sort on `hybrid_score`. -/
def hybridFuse (bm25_results semantic_results : List HybridResult) : List HybridResult :=
  sortByDesc (fun r => r.hybrid_score) (hybridCombine bm25_results semantic_results)

/-- `HybridRAGService.rerank_results` (lines 226-250) with a configured
cross-encoder: rescore each row with the cross-encoder and sort by that
score (stable, so ties keep fusion order), truncating to `top_k`. -/
def rerank_results (cross : String → String → ℚ) (query : String)
    (results : List HybridResult) (top_k : ℕ) : List HybridResult :=
  (sortByDesc (fun r => cross query r.content) results).take top_k

/-- `HybridRAGService.hybrid_search` (lines 252-314): BM25 and semantic
branches with `top_k = 15`, fusion, then either cross-encoder re-ranking of
the fused top 15 or plain truncation to `top_k`. -/
def hybrid_search (st : HybridState) (semModel : Option (String → List ℚ))
    (semSearch : List ℚ → List (List ℚ) → ℕ → List (ℕ × ℚ))
    (cross_encoder : Option (String → String → ℚ))
    (query : String) (top_k : ℕ) (rerank : Bool) : List HybridResult :=
  let bm25_results := search_bm25 st query 15
  let semantic_results := search_semantic st semModel semSearch query 15
  let final_results := hybridFuse bm25_results semantic_results
  match cross_encoder with
  | some cross => if rerank then rerank_results cross query (final_results.take 15) top_k
                  else final_results.take top_k
  | none => final_results.take top_k

/-- Per-credential status record of `GeminiAPIRotationService.key_status`
(api_rotation.py lines 49-56).  A credential is "invalid" when an
authentication failure has cleared `active` without setting
`quota_exhausted`. -/
structure KeyStatus where
  active : Bool
  quota_exhausted : Bool
  last_error_time : Option ℕ
  error_count : ℕ
  successful_requests : ℕ
deriving DecidableEq, Repr

/-- Status of a freshly constructed credential. -/
def freshKeyStatus : KeyStatus :=
  { active := true, quota_exhausted := false, last_error_time := none,
    error_count := 0, successful_requests := 0 }

/-- The rotation service state: the ring of credential statuses and the
current index. -/
structure RotationState where
  keys : List KeyStatus
  current_key_index : ℕ
deriving DecidableEq, Repr

/-- `quota_reset_time = timedelta(hours=24)`, in hours. -/
def quota_reset_time : ℕ := 24

/-- `GeminiAPIRotationService._handle_api_error` (lines 124-142) applied to
one credential's status: stamp the error time and count, then on 429 mark
quota-exhausted and inactive, on 401/403 mark inactive, otherwise leave the
flags alone. -/
def handle_api_error (code : ℕ) (now : ℕ) (st : KeyStatus) : KeyStatus :=
  let st := { st with last_error_time := some now, error_count := st.error_count + 1 }
  if code == 429 then { st with quota_exhausted := true, active := false }
  else if code == 401 || code == 403 then { st with active := false }
  else st

/-- `_handle_api_error` applied to the current credential, as done by
`_create_batch_with_rotation` when a request on the current key fails. -/
def reportErrorAtCurrent (s : RotationState) (code : ℕ) (now : ℕ) : RotationState :=
  match s.keys.get? s.current_key_index with
  | some st => { s with keys := s.keys.set s.current_key_index (handle_api_error code now st) }
  | none => s

/-- The lazy cool-down check inside `_rotate_to_next_key` (lines 102-110):
a quota-exhausted credential whose last error is strictly older than the
24-hour window is reset to active with a cleared error count. -/
def resetIfCooledDown (now : ℕ) (st : KeyStatus) : KeyStatus :=
  if st.quota_exhausted then
    match st.last_error_time with
    | some t =>
        if t + quota_reset_time < now then
          { st with quota_exhausted := false, active := true, error_count := 0 }
        else st
    | none => st
  else st

/-- The availability test of the scan (line 113):
`status["active"] and not status["quota_exhausted"]`. -/
def keyAvailable (st : KeyStatus) : Bool :=
  st.active && !st.quota_exhausted

/-- One pass of the scan loop of `_rotate_to_next_key` with `fuel` remaining
attempts: advance the index, apply the lazy cool-down reset in place, stop
with success on an available credential, otherwise keep scanning. -/
def rotateAux (now : ℕ) : ℕ → RotationState → RotationState × Bool
  | 0, s => (s, false)
  | Nat.succ fuel, s =>
      match s.keys.get? ((s.current_key_index + 1) % s.keys.length) with
      | none => (s, false)
      | some st =>
          if keyAvailable (resetIfCooledDown now st) = true then
            (⟨s.keys.set ((s.current_key_index + 1) % s.keys.length)
                (resetIfCooledDown now st),
              (s.current_key_index + 1) % s.keys.length⟩, true)
          else
            rotateAux now fuel
              ⟨s.keys.set ((s.current_key_index + 1) % s.keys.length)
                  (resetIfCooledDown now st),
                (s.current_key_index + 1) % s.keys.length⟩

/-- `GeminiAPIRotationService._rotate_to_next_key` (lines 86-122): scan at
most `len(api_keys)` positions of the ring; `false` means no available key
was found. -/
def rotate_to_next_key (s : RotationState) (now : ℕ) : RotationState × Bool :=
  rotateAux now s.keys.length s

/-- A sequence of rotation scans at the given times, keeping only the state
(used to express that repeated scans never resurrect an invalid key). -/
def rotateScans (s : RotationState) (nows : List ℕ) : RotationState :=
  nows.foldl (fun st now => (rotate_to_next_key st now).1) s

/-- A credential in the terminal "invalid" shape: inactive without the
quota-exhausted flag (the shape produced by a 401/403 on a key that was not
already quota-exhausted). -/
def invalidPure (st : KeyStatus) : Prop :=
  st.active = false ∧ st.quota_exhausted = false

/-- Value of a hex digit, as `int(chunk, 16)` reads it (the sha256 hexdigest
only contains `0-9a-f`). -/
def hexVal (c : Char) : ℕ :=
  if '0' ≤ c ∧ c ≤ '9' then c.toNat - '0'.toNat
  else if 'a' ≤ c ∧ c ≤ 'f' then c.toNat - 'a'.toNat + 10
  else if 'A' ≤ c ∧ c ≤ 'F' then c.toNat - 'A'.toNat + 10
  else 0

/-- `int(chunk, 16)` on a run of hex digits. -/
def hexNat (cs : List Char) : ℕ :=
  cs.foldl (fun n c => n * 16 + hexVal c) 0

/-- Split a character list into chunks of 8, as the loop
`for i in range(0, len(text_hash), 8)` slices the hexdigest. -/
def chunksOf8 : List Char → List (List Char)
  | [] => []
  | c :: cs => (c :: cs).take 8 :: chunksOf8 (cs.drop 7)
termination_by l => l.length
decreasing_by simp [List.length_drop]; omega

/-- `EmbeddingsService._create_fallback_embedding` (embeddings.py lines
161-181).  `sha256hex` stands for `hashlib.sha256(text.encode()).hexdigest()`
(an external, deterministic library function); every 8-hex-digit chunk maps
to `int(chunk, 16) / 16**8 * 2 - 1`, and the vector is padded with zeros or
truncated to the configured dimension count. -/
def fallbackVector (sha256hex : String → String) (text : String) : List ℚ :=
  (chunksOf8 (sha256hex text).data).map (fun chunk => ((hexNat chunk : ℚ) / 16^8) * 2 - 1)

/-- Pad-or-truncate step of `_create_fallback_embedding`: the hash-derived
vector is brought to exactly `dimensions` entries. -/
def create_fallback_embedding (sha256hex : String → String) (dimensions : ℕ)
    (text : String) : List ℚ :=
  if (fallbackVector sha256hex text).length < dimensions then
    fallbackVector sha256hex text
      ++ List.replicate (dimensions - (fallbackVector sha256hex text).length) 0
  else (fallbackVector sha256hex text).take dimensions

/-- Configuration snapshot of `EmbeddingsService` that `create_embeddings`
branches on: the primary provider name, the rotation flag, which provider
attributes exist, and the configured dimension count. -/
structure EmbConfig where
  primary_provider : String
  use_rotation : Bool
  hasSentenceTransformer : Bool
  hasGeminiClient : Bool
  hasOpenAIClient : Bool
  dimensions : ℕ

/-- Outcome of one call to the rotation service:
`ok embs` models a returned embedding list, `exhausted` models a `None`
return (all keys exhausted), `raised` models an exception. -/
inductive RotOutcome
  | ok (embs : List (List ℚ))
  | exhausted
  | raised
deriving DecidableEq

/-- The external provider calls available to one `create_embeddings`
invocation.  `none` models the call raising an exception; each successful
call is deterministic within the invocation. -/
structure ProviderOutcomes where
  rotationPresent : Bool
  rotation : RotOutcome
  st : Option (List (List ℚ))
  gemini : Option (List (List ℚ))
  openai : Option (List (List ℚ))

/-- The provider chain of `EmbeddingsService.create_embeddings` after the
rotation branch has been left (lines 290-317): primary provider, then the
sentence-transformer fallback, then the hash fallback. -/
def createEmbeddingsTail (cfg : EmbConfig) (run : ProviderOutcomes)
    (sha256hex : String → String) (texts : List String) : List (List ℚ) :=
  match (if cfg.primary_provider == "sentence_transformers" ∧ cfg.hasSentenceTransformer
           then run.st
         else if (cfg.primary_provider == "gemini" ∨ cfg.primary_provider == "gemini_rotation")
                 ∧ cfg.hasGeminiClient then run.gemini
         else if cfg.primary_provider == "openai" ∧ cfg.hasOpenAIClient then run.openai
         else none) with
  | some embs => embs
  | none =>
      match (if cfg.hasSentenceTransformer then run.st else none) with
      | some embs => embs
      | none => texts.map (create_fallback_embedding sha256hex cfg.dimensions)

/-- `EmbeddingsService.create_embeddings` (embeddings.py lines 255-317):
when rotation is the primary provider, a truthy rotation result is returned
directly; a falsy result (all keys exhausted) tries the sentence
transformer immediately; an exception falls through to the ordinary chain,
which ends at the hash fallback that cannot fail. -/
def create_embeddings (cfg : EmbConfig) (run : ProviderOutcomes)
    (sha256hex : String → String) (texts : List String) : List (List ℚ) :=
  if cfg.primary_provider == "gemini_rotation" ∧ cfg.use_rotation ∧ run.rotationPresent then
    match run.rotation with
    | RotOutcome.ok embs =>
        if ¬ embs.isEmpty then embs
        else
          match (if cfg.hasSentenceTransformer then run.st else none) with
          | some r => r
          | none => createEmbeddingsTail cfg run sha256hex texts
    | RotOutcome.exhausted =>
        match (if cfg.hasSentenceTransformer then run.st else none) with
        | some r => r
        | none => createEmbeddingsTail cfg run sha256hex texts
    | RotOutcome.raised => createEmbeddingsTail cfg run sha256hex texts
  else createEmbeddingsTail cfg run sha256hex texts

/-- The observable state `create_single_embedding` routes on: the active
provider recorded by the last batch write, which provider attributes exist,
the ChromaDB document count (`none` when no collection is configured), and
the embedding dimension of every in-memory vector, in storage order. -/
structure QueryRouteState where
  active_provider : Option String
  hasSentenceTransformer : Bool
  hasGeminiClient : Bool
  chromaCount : Option ℕ
  memoryDims : List ℕ
deriving DecidableEq, Repr

/-- Which provider path `create_single_embedding` commits to. -/
inductive QueryRoute
  | activeST
  | activeGemini
  | chromaForcedST
  | memMajorityST
  | memMajorityGemini
  | defaultProvider
deriving DecidableEq, Repr

/-- The `dimension_counts` dict of the in-memory analysis (embeddings.py
lines 402-407): occurrence counts per dimension, keyed in first-appearance
order. -/
def dimensionCounts (dims : List ℕ) : List (ℕ × ℕ) :=
  dims.foldl (fun acc d =>
    if acc.any (fun p => p.1 == d) then
      acc.map (fun p => if p.1 == d then (p.1, p.2 + 1) else p)
    else acc ++ [(d, 1)]) []

/-- `max(dimension_counts.items(), key=lambda x: x[1])` (line 410): the
first pair with the maximal count (Python's `max` keeps the earliest
maximum). -/
def pyMaxByCount : List (ℕ × ℕ) → Option (ℕ × ℕ)
  | [] => none
  | p :: ps => some (ps.foldl (fun best q => if best.2 < q.2 then q else best) p)

/-- Routing decision of `EmbeddingsService.create_single_embedding`
(embeddings.py lines 319-439), under the modelling assumption that a
provider call succeeds exactly when the provider attribute exists: first
the consistency check against `active_provider`, then the ChromaDB
document-count heuristic (force sentence transformers above 3500 documents),
then the in-memory majority-dimension analysis (384 forces sentence
transformers, 3072 forces Gemini), and finally the default
`create_embeddings` chain. -/
def create_single_embedding_route (s : QueryRouteState) : QueryRoute :=
  if s.active_provider == some "sentence_transformers" ∧ s.hasSentenceTransformer then
    QueryRoute.activeST
  else if s.active_provider == some "gemini" ∧ s.hasGeminiClient then
    QueryRoute.activeGemini
  else
    let chromaForced : Bool :=
      match s.chromaCount with
      | some n => 3500 < n ∧ s.hasSentenceTransformer
      | none => false
    if chromaForced then QueryRoute.chromaForcedST
    else if ¬ s.memoryDims.isEmpty then
      match pyMaxByCount (dimensionCounts s.memoryDims) with
      | some md =>
          if md.1 == 384 ∧ s.hasSentenceTransformer then QueryRoute.memMajorityST
          else if md.1 == 3072 ∧ s.hasGeminiClient then QueryRoute.memMajorityGemini
          else QueryRoute.defaultProvider
      | none => QueryRoute.defaultProvider
    else QueryRoute.defaultProvider

/-- The two storage layers `delete_documents_by_source` touches: the
ChromaDB collection (`none` when unavailable) and the in-memory mirror. -/
structure VectorStoreState where
  chroma : Option (List MemVec)
  memory : List MemVec
deriving DecidableEq, Repr

/-- Source of a ChromaDB chunk as the deletion scan reads it:
`metadata.get("source", "")`. -/
def chromaSource (v : MemVec) : String :=
  (metaGet v.metadata "source").getD ""

/-- How many chunks a `delete_documents_by_source(source)` call removes in
total (its `chroma_deleted + memory_deleted`): mirrored chunks are counted
once per layer. -/
def deleteBySourceCount (st : VectorStoreState) (source_filename : String) : ℕ :=
  (match st.chroma with
   | some docs => docs.countP (fun v => chromaSource v == source_filename)
   | none => 0) +
  st.memory.countP (fun v => metaGet v.metadata "source" == some source_filename)

/-- `VectorStoreService.delete_documents_by_source` (vector_store.py lines
764-877): drop every matching chunk from the ChromaDB collection (matching
on `metadata.get("source", "")`) and from the in-memory mirror (matching on
`metadata.get("source")`), and return `True` exactly when
`chroma_deleted + memory_deleted > 0`. -/
def delete_documents_by_source (st : VectorStoreState) (source_filename : String) :
    VectorStoreState × Bool :=
  ({ chroma :=
      match st.chroma with
      | some docs => some (docs.filter (fun v => ¬ (chromaSource v == source_filename)))
      | none => none,
     memory :=
      st.memory.filter (fun v => ¬ (metaGet v.metadata "source" == some source_filename)) },
   decide (0 < deleteBySourceCount st source_filename))

/-- The entry stored under a given key in an insertion-ordered dict
modelled as a list (first matching element). -/
def entryOf (key : α → String) (x : String) (l : List α) : Option α :=
  l.find? (fun m => key m == x)

/-- What the multi-query merge does to the entry of one document id, given
the sub-sequence of per-variant results carrying that id: the first
occurrence creates the entry, every further occurrence applies the
boost-and-flag update. -/
def mergeEntrySim : Option MQResult → List SearchResult → Option MQResult
  | e, [] => e
  | none, r :: rs =>
      mergeEntrySim (some { id := r.id, content := r.content, source := r.source,
                            score := r.score, multi_match := false }) rs
  | some m, r :: rs =>
      mergeEntrySim
        (some { m with score := pymin 1 (pymax m.score r.score + 1/10), multi_match := true }) rs

/-- What the semantic fusion loop does to the entry of one document id,
given the sub-sequence of semantic results carrying that id. -/
def semEntrySim : Option HybridResult → List HybridResult → Option HybridResult
  | e, [] => e
  | none, q :: qs => semEntrySim (some { q with hybrid_score := q.score }) qs
  | some m, q :: qs =>
      semEntrySim
        (some { m with hybrid_score := pymax m.hybrid_score (q.score * (6/5)), search_type := "hybrid" }) qs

theorem mem_insDesc {key : α → ℚ} {a x : α} {l : List α} :
    x ∈ insDesc key a l ↔ x = a ∨ x ∈ l := by
  induction l with
  | nil => simp [insDesc]
  | cons b bs ih =>
      simp only [insDesc]
      split
      · simp [List.mem_cons]
      · simp [List.mem_cons, ih]
        tauto

theorem mem_foldl_insDesc {key : α → ℚ} {x : α} :
    ∀ {l acc : List α}, x ∈ l.foldl (fun acc a => insDesc key a acc) acc ↔ x ∈ acc ∨ x ∈ l := by
  intro l
  induction l with
  | nil => simp
  | cons a as ih =>
      intro acc
      simp only [List.foldl_cons]
      rw [ih, mem_insDesc]
      simp [List.mem_cons]
      tauto

theorem mem_sortByDesc {key : α → ℚ} {x : α} {l : List α} :
    x ∈ sortByDesc key l ↔ x ∈ l := by
  unfold sortByDesc
  rw [mem_foldl_insDesc]
  simp

theorem sorted_insDesc {key : α → ℚ} {a : α} {l : List α}
    (h : l.Sorted (keyDescRel key)) : (insDesc key a l).Sorted (keyDescRel key) := by
  induction l with
  | nil => simp [insDesc]
  | cons b bs ih =>
      rw [List.sorted_cons] at h
      obtain ⟨hb, hbs⟩ := h
      simp only [insDesc]
      split
      · rename_i hlt
        rw [List.sorted_cons]
        refine ⟨?_, ?_⟩
        · intro y hy
          rcases List.mem_cons.mp hy with rfl | hy
          · exact le_of_lt hlt
          · exact le_trans (hb y hy) (le_of_lt hlt)
        · rw [List.sorted_cons]
          exact ⟨hb, hbs⟩
      · rename_i hge
        rw [List.sorted_cons]
        refine ⟨?_, ih hbs⟩
        intro y hy
        rcases mem_insDesc.mp hy with rfl | hy
        · exact not_lt.mp hge
        · exact hb y hy

theorem sorted_foldl_insDesc {key : α → ℚ} :
    ∀ {l acc : List α}, acc.Sorted (keyDescRel key) →
      (l.foldl (fun acc a => insDesc key a acc) acc).Sorted (keyDescRel key) := by
  intro l
  induction l with
  | nil => intro acc h; simpa using h
  | cons a as ih =>
      intro acc h
      simp only [List.foldl_cons]
      exact ih (sorted_insDesc h)

theorem sorted_sortByDesc {key : α → ℚ} (l : List α) :
    (sortByDesc key l).Sorted (keyDescRel key) :=
  sorted_foldl_insDesc (by simp)

theorem filter_insDesc_neg {key : α → ℚ} {p : α → Bool} {a : α} {l : List α}
    (hp : p a = false) : (insDesc key a l).filter p = l.filter p := by
  induction l with
  | nil => simp [insDesc, hp]
  | cons b bs ih =>
      simp only [insDesc]
      split
      · simp [List.filter_cons, hp]
      · simp [List.filter_cons, ih]

theorem filter_insDesc_pos {key : α → ℚ} {s : ℚ} {a : α} {l : List α}
    (hl : l.Sorted (keyDescRel key)) (ha : key a = s) :
    (insDesc key a l).filter (fun x => key x == s) =
      l.filter (fun x => key x == s) ++ [a] := by
  induction l with
  | nil => simp [insDesc, ha]
  | cons b bs ih =>
      rw [List.sorted_cons] at hl
      obtain ⟨hb, hbs⟩ := hl
      simp only [insDesc]
      split
      · rename_i hlt
        have hbne : (key b == s) = false :=
          beq_eq_false_iff_ne.mpr (ne_of_lt (ha ▸ hlt))
        have hbsnil : bs.filter (fun x => key x == s) = [] := by
          rw [List.filter_eq_nil_iff]
          intro y hy
          exact (Bool.not_eq_true _).mpr
            (beq_eq_false_iff_ne.mpr (ne_of_lt (lt_of_le_of_lt (hb y hy) (ha ▸ hlt))))
        simp [List.filter_cons, hbne, hbsnil, ha]
      · simp [List.filter_cons, ih hbs]
        split <;> simp

theorem filter_foldl_insDesc {key : α → ℚ} {s : ℚ} :
    ∀ {l acc : List α}, acc.Sorted (keyDescRel key) →
      (l.foldl (fun acc a => insDesc key a acc) acc).filter (fun x => key x == s) =
        acc.filter (fun x => key x == s) ++ l.filter (fun x => key x == s) := by
  intro l
  induction l with
  | nil => intro acc _; simp
  | cons a as ih =>
      intro acc h
      simp only [List.foldl_cons]
      rw [ih (sorted_insDesc h)]
      by_cases hk : key a = s
      · rw [filter_insDesc_pos h hk]
        have hka : (key a == s) = true := beq_iff_eq.mpr hk
        simp [List.filter_cons, hka]
      · have hka : (key a == s) = false := beq_eq_false_iff_ne.mpr hk
        rw [@filter_insDesc_neg _ key (fun x => key x == s) a acc hka]
        simp [List.filter_cons, hka]

theorem filter_sortByDesc {key : α → ℚ} {s : ℚ} (l : List α) :
    (sortByDesc key l).filter (fun x => key x == s) = l.filter (fun x => key x == s) := by
  unfold sortByDesc
  rw [filter_foldl_insDesc (by simp)]
  simp

theorem mem_take_ite_filter {α : Type _} {r : α} {n : ℕ} {c : Prop} [Decidable c]
    {p q : α → Bool} {l : List α}
    (hr : r ∈ List.take n (if c then List.filter p l else List.filter q l)) : r ∈ l := by
  have h := List.take_subset _ _ hr
  split at h <;> exact List.mem_of_mem_filter h

/-- C1: dimension safety of search.  Every row returned by the in-memory
branch of `search_similar_documents`, and every row returned by
`search_similar_documents_with_source_filter`, originates from a stored
chunk whose embedding length equals the query vector's length; chunks of
any other dimension are excluded before scoring, so they can never appear
in a result list. -/
theorem dimension_safety_search (sim : List ℚ → List ℚ → ℚ) (store : List MemVec)
    (query_embedding : List ℚ) (top_k : ℕ) (filter_metadata : List (String × String))
    (preferred_source : Option String) (similarity_threshold : ℚ) :
    (∀ r ∈ search_similar_documents sim store query_embedding top_k filter_metadata
        similarity_threshold,
      ∃ v ∈ store, v.id = r.id ∧ v.embedding.length = query_embedding.length)
    ∧ (∀ r ∈ search_similar_documents_with_source_filter sim store query_embedding
        preferred_source top_k similarity_threshold,
      ∃ v ∈ store, v.id = r.id ∧ v.embedding.length = query_embedding.length) := by
  constructor
  · intro r hr
    unfold search_similar_documents at hr
    have hr2 := List.take_subset _ _ hr
    rw [mem_sortByDesc, List.mem_filterMap] at hr2
    obtain ⟨v, hv, heq⟩ := hr2
    refine ⟨v, hv, ?_⟩
    split at heq
    · exact absurd heq (by simp)
    · rename_i hdim
      split at heq
      · exact absurd heq (by simp)
      · have heq2 : (if similarity_threshold ≤ sim query_embedding v.embedding then
            some (mkMemResult v (sim query_embedding v.embedding)) else none) = some r := heq
        split at heq2
        · cases heq2
          exact ⟨rfl, not_not.mp hdim⟩
        · exact absurd heq2 (by simp)
  · intro r hr
    simp only [search_similar_documents_with_source_filter] at hr
    split at hr
    · exact absurd hr (by simp)
    · split at hr
      · exact absurd hr (by simp)
      · rename_i hcomp
        have hr3 := mem_take_ite_filter hr
        rw [mem_sortByDesc, List.mem_map] at hr3
        obtain ⟨d, hd, rfl⟩ := hr3
        have hd0 : d ∈ store.filter
            (fun d => d.embedding.length == query_embedding.length) := by
          split at hd
          · rename_i p hp
            split at hd
            · exact List.mem_of_mem_filter hd
            · exact hd
          · exact hd
        rw [List.mem_filter] at hd0
        exact ⟨d, hd0.1, rfl, by simpa using hd0.2⟩

/-- Witness for C1: a store holding one chunk of dimension 1 queried with a
dimension-1 vector; the theorem applies to the concrete result row. -/
theorem dimension_safety_search_witness :
    ∃ v ∈ [(⟨"a", [1], [("content", "t"), ("source", "s")]⟩ : MemVec)],
      v.id = (⟨"a", "t", "s", 1⟩ : SearchResult).id ∧
      v.embedding.length = [(2 : ℚ)].length := by
  refine (dimension_safety_search (fun _ _ => 1)
    [⟨"a", [1], [("content", "t"), ("source", "s")]⟩] [2] 5 [] none 0).1
    ⟨"a", "t", "s", 1⟩ ?_
  simp [search_similar_documents, mkMemResult, metadataMatches, metaGet,
        sortByDesc, insDesc]
  rfl

theorem multiQueryMergeAll_eq_flatten (per_variant : List (List SearchResult)) :
    multiQueryMergeAll per_variant = per_variant.flatten.foldl multiQueryMergeStep [] := by
  suffices h : ∀ (pv : List (List SearchResult)) (acc : List MQResult),
      pv.foldl (fun acc results => results.foldl multiQueryMergeStep acc) acc
        = pv.flatten.foldl multiQueryMergeStep acc by
    simpa [multiQueryMergeAll] using h per_variant []
  intro pv
  induction pv with
  | nil => intro acc; simp
  | cons l ls ih => intro acc; simp [List.flatten_cons, List.foldl_append, ih]

theorem entry_mqStep_ne {acc : List MQResult} {r : SearchResult} {x : String}
    (h : (r.id == x) = false) :
    entryOf (fun m => m.id) x (multiQueryMergeStep acc r)
      = entryOf (fun m => m.id) x acc := by
  unfold multiQueryMergeStep entryOf
  have hrx : r.id ≠ x := by simpa using h
  split
  · have hpf : ((fun m : MQResult => m.id == x) ∘ (fun m =>
        if m.id == r.id then
          { m with score := pymin 1 (pymax m.score r.score + 1/10), multi_match := true }
        else m)) = fun m : MQResult => m.id == x := by
      funext m
      by_cases hm : m.id = r.id <;> simp [hm]
    rw [List.find?_map, hpf]
    cases hfind : acc.find? (fun m => m.id == x) with
    | none => simp
    | some y =>
        have hy : y.id = x := by simpa using List.find?_some hfind
        have hyr : ¬ (y.id = r.id) := by
          intro hc
          exact hrx (hc ▸ hy)
        simp [hyr]
  · rw [List.find?_append]
    have hone : (([⟨r.id, r.content, r.source, r.score, false⟩] : List MQResult).find?
        (fun m => m.id == x)) = none := by
      simp [List.find?, h]
    rw [hone]
    cases acc.find? (fun m => m.id == x) <;> simp

theorem entry_mqStep_new {acc : List MQResult} {r : SearchResult} {x : String}
    (hacc : entryOf (fun m => m.id) x acc = none) (hx : (r.id == x) = true) :
    entryOf (fun m => m.id) x (multiQueryMergeStep acc r)
      = some ⟨r.id, r.content, r.source, r.score, false⟩ := by
  unfold multiQueryMergeStep entryOf
  have hrx : r.id = x := by simpa using hx
  unfold entryOf at hacc
  have hany : (acc.any (fun m => m.id == r.id)) = false := by
    rw [List.any_eq_false]
    intro m hm
    have := List.find?_eq_none.mp hacc m hm
    simpa [hrx] using this
  rw [if_neg (by simp [hany])]
  rw [List.find?_append, hacc]
  simp [List.find?, hx]

theorem entry_mqStep_upd {acc : List MQResult} {r : SearchResult} {x : String}
    {m : MQResult} (hacc : entryOf (fun m => m.id) x acc = some m)
    (hx : (r.id == x) = true) :
    entryOf (fun m => m.id) x (multiQueryMergeStep acc r)
      = some { m with score := pymin 1 (pymax m.score r.score + 1/10), multi_match := true } := by
  unfold multiQueryMergeStep entryOf
  have hrx : r.id = x := by simpa using hx
  unfold entryOf at hacc
  have hm_id : m.id = x := by simpa using List.find?_some hacc
  have hany : (acc.any (fun m => m.id == r.id)) = true := by
    rw [List.any_eq_true]
    exact ⟨m, List.mem_of_find?_eq_some hacc, by simp [hm_id, hrx]⟩
  rw [if_pos (by simp [hany])]
  have hpf : ((fun m : MQResult => m.id == x) ∘ (fun m =>
      if m.id == r.id then
        { m with score := pymin 1 (pymax m.score r.score + 1/10), multi_match := true }
      else m)) = fun m : MQResult => m.id == x := by
    funext y
    by_cases hy : y.id = r.id <;> simp [hy]
  rw [List.find?_map, hpf, hacc]
  simp [hm_id, hrx]

theorem entry_mq_foldl {x : String} :
    ∀ (rs : List SearchResult) (acc : List MQResult),
      entryOf (fun m => m.id) x (rs.foldl multiQueryMergeStep acc)
        = mergeEntrySim (entryOf (fun m => m.id) x acc)
            (rs.filter (fun r => r.id == x)) := by
  intro rs
  induction rs with
  | nil => intro acc; simp [mergeEntrySim]
  | cons r rs ih =>
      intro acc
      simp only [List.foldl_cons, List.filter_cons]
      by_cases hx : (r.id == x) = true
      · rw [if_pos hx, ih]
        cases hacc : entryOf (fun m => m.id) x acc with
        | none => rw [entry_mqStep_new hacc hx]; simp [mergeEntrySim]
        | some m => rw [entry_mqStep_upd hacc hx]; simp [mergeEntrySim]
      · rw [if_neg hx, ih, entry_mqStep_ne (by simpa using hx)]

/-- C5 counterexample: a chunk returned with score 0.5 under three query
variations.  The claimed fusion formula `min(1.0, max(scores) + bonus)`
yields 0.6, but the code applies the 0.1 bonus once per additional match
and stores 0.7. -/
theorem multi_match_boost_cex :
    entryOf (fun m => m.id) "c"
      (multiQueryMergeAll [[⟨"c", "", "", 1/2⟩], [⟨"c", "", "", 1/2⟩], [⟨"c", "", "", 1/2⟩]])
      = some ⟨"c", "", "", 7/10, true⟩
    ∧ (7/10 : ℚ) ≠ pymin 1 (pymax (1/2) (pymax (1/2) (1/2)) + 1/10) := by
  constructor
  · rw [multiQueryMergeAll_eq_flatten]
    norm_num [entryOf, multiQueryMergeStep, List.find?, pymin, pymax]
  · norm_num [pymin, pymax]

/-- C5 amended: in `search_similar_documents_multi_query`, a chunk returned
under exactly one query vector keeps its score and is flagged
`multi_match = false`; a chunk returned under exactly two query vectors is
fused to `min(1.0, max(s1, s2) + 0.1)` and flagged `multi_match = true`
(in particular scores 0.6 and 0.7 fuse above 0.7); for more than two
occurrences the 0.1 bonus is applied cumulatively at each extra match
rather than once over the maximum. -/
theorem multi_match_boost_amended (per_variant : List (List SearchResult)) (x : String) :
    (∀ r1, per_variant.flatten.filter (fun r => r.id == x) = [r1] →
      entryOf (fun m => m.id) x (multiQueryMergeAll per_variant)
        = some ⟨r1.id, r1.content, r1.source, r1.score, false⟩)
    ∧ (∀ r1 r2, per_variant.flatten.filter (fun r => r.id == x) = [r1, r2] →
      entryOf (fun m => m.id) x (multiQueryMergeAll per_variant)
        = some ⟨r1.id, r1.content, r1.source,
                pymin 1 (pymax r1.score r2.score + 1/10), true⟩) := by
  constructor
  · intro r1 hfil
    rw [multiQueryMergeAll_eq_flatten, entry_mq_foldl, hfil]
    rfl
  · intro r1 r2 hfil
    rw [multiQueryMergeAll_eq_flatten, entry_mq_foldl, hfil]
    rfl

/-- Witness for C5: scores 0.6 and 0.7 under two variations fuse to 0.8,
strictly above 0.7, with the `multi_match` flag set. -/
theorem multi_match_boost_amended_witness :
    entryOf (fun m => m.id) "c"
      (multiQueryMergeAll [[⟨"c", "", "", 3/5⟩], [⟨"c", "", "", 7/10⟩]])
      = some ⟨"c", "", "", pymin 1 (pymax (3/5) (7/10) + 1/10), true⟩
    ∧ (7/10 : ℚ) < pymin 1 (pymax (3/5) (7/10) + 1/10) := by
  constructor
  · exact (multi_match_boost_amended
      [[⟨"c", "", "", 3/5⟩], [⟨"c", "", "", 7/10⟩]] "c").2
      ⟨"c", "", "", 3/5⟩ ⟨"c", "", "", 7/10⟩ (by simp [List.filter])
  · norm_num [pymin, pymax]

/-- C10 counterexample: two chunks with equal scores, first returned in the
order `"b"`, `"a"`.  The merged output keeps insertion order `["b", "a"]`,
which violates the claimed chunk-id tie-break. -/
theorem merge_tiebreak_cex :
    multiQueryFinal [[⟨"b", "", "", 1/2⟩, ⟨"a", "", "", 1/2⟩]] 2 0
      = [⟨"b", "", "", 1/2, false⟩, ⟨"a", "", "", 1/2, false⟩]
    ∧ ¬ List.Sorted specTieBreakLe
        (multiQueryFinal [[⟨"b", "", "", 1/2⟩, ⟨"a", "", "", 1/2⟩]] 2 0) := by
  have hcomp : multiQueryFinal [[⟨"b", "", "", 1/2⟩, ⟨"a", "", "", 1/2⟩]] 2 0
      = [⟨"b", "", "", 1/2, false⟩, ⟨"a", "", "", 1/2, false⟩] := by
    have hba : ¬ (("b" : String) = "a") := by decide
    norm_num [multiQueryFinal, multiQueryMergeAll, multiQueryMergeStep,
      sortByDesc, insDesc, List.find?, hba]
  refine ⟨hcomp, ?_⟩
  rw [hcomp]
  intro hsort
  rw [List.sorted_cons] at hsort
  have := hsort.1 ⟨"a", "", "", 1/2, false⟩ (by simp)
  rcases this with hlt | ⟨_, hle⟩
  · exact absurd hlt (by norm_num)
  · have : strLe "b" "a" = false := by rfl
    rw [this] at hle
    exact absurd hle (by simp)

/-- C10 amended: the merge of `search_similar_documents_multi_query` is a
deterministic function of the per-vector result lists; the output is
ordered by non-increasing fused score, and chunks with equal scores keep
their first-insertion order (order of first appearance across the variant
lists) — the tie-break is insertion order, not chunk id. -/
theorem merge_determinism_amended (per_variant : List (List SearchResult))
    (top_k : ℕ) (thr : ℚ) :
    List.Sorted (keyDescRel (fun r : MQResult => r.score))
      (multiQueryFinal per_variant top_k thr)
    ∧ ∀ s : ℚ,
      (sortByDesc (fun r : MQResult => r.score) (multiQueryMergeAll per_variant)).filter
          (fun r => r.score == s)
        = (multiQueryMergeAll per_variant).filter (fun r => r.score == s) := by
  constructor
  · have hs := @sorted_sortByDesc MQResult (fun r : MQResult => r.score)
      (multiQueryMergeAll per_variant)
    unfold multiQueryFinal
    exact List.Pairwise.sublist (List.take_sublist _ _) (hs.filter _)
  · intro s
    exact filter_sortByDesc _

theorem entry_bm25Step_present {acc : List HybridResult} {r m : HybridResult} {x : String}
    (hacc : entryOf (fun m => m.document_id) x acc = some m) :
    entryOf (fun m => m.document_id) x (hybridFuseBM25Step acc r) = some m := by
  unfold hybridFuseBM25Step entryOf
  unfold entryOf at hacc
  split
  · exact hacc
  · rw [List.find?_append, hacc]
    rfl

theorem entry_bm25Step_absent_ne {acc : List HybridResult} {r : HybridResult} {x : String}
    (hacc : entryOf (fun m => m.document_id) x acc = none) (h : (r.document_id == x) = false) :
    entryOf (fun m => m.document_id) x (hybridFuseBM25Step acc r) = none := by
  unfold hybridFuseBM25Step entryOf
  unfold entryOf at hacc
  split
  · exact hacc
  · rw [List.find?_append, hacc]
    simp [List.find?, h]

theorem entry_bm25Step_absent_eq {acc : List HybridResult} {r : HybridResult} {x : String}
    (hacc : entryOf (fun m => m.document_id) x acc = none) (hx : (r.document_id == x) = true) :
    entryOf (fun m => m.document_id) x (hybridFuseBM25Step acc r)
      = some { r with hybrid_score := r.score * (3/2) } := by
  unfold hybridFuseBM25Step entryOf
  unfold entryOf at hacc
  have hrx : r.document_id = x := by simpa using hx
  have hany : (acc.any (fun m => m.document_id == r.document_id)) = false := by
    rw [List.any_eq_false]
    intro m hm
    have := List.find?_eq_none.mp hacc m hm
    simpa [hrx] using this
  rw [if_neg (by simp [hany])]
  rw [List.find?_append, hacc]
  simp [List.find?, hx]

theorem entry_bm25_foldl {x : String} :
    ∀ (rs : List HybridResult) (acc : List HybridResult),
      entryOf (fun m => m.document_id) x (rs.foldl hybridFuseBM25Step acc)
        = match entryOf (fun m => m.document_id) x acc with
          | some m => some m
          | none => ((rs.filter (fun r => r.document_id == x)).head?).map
              (fun r => { r with hybrid_score := r.score * (3/2) }) := by
  intro rs
  induction rs with
  | nil => intro acc; cases hacc : entryOf (fun m => m.document_id) x acc <;> simp [hacc]
  | cons r rs ih =>
      intro acc
      simp only [List.foldl_cons, List.filter_cons]
      cases hacc : entryOf (fun m => m.document_id) x acc with
      | some m =>
          rw [ih, entry_bm25Step_present hacc]
      | none =>
          by_cases hx : (r.document_id == x) = true
          · rw [ih, entry_bm25Step_absent_eq hacc hx]
            simp [hx]
          · rw [ih, entry_bm25Step_absent_ne hacc (by simpa using hx)]
            simp [hx]

theorem entry_semStep_ne {acc : List HybridResult} {r : HybridResult} {x : String}
    (h : (r.document_id == x) = false) :
    entryOf (fun m => m.document_id) x (hybridFuseSemStep acc r)
      = entryOf (fun m => m.document_id) x acc := by
  unfold hybridFuseSemStep entryOf
  have hrx : r.document_id ≠ x := by simpa using h
  split
  · have hpf : ((fun m : HybridResult => m.document_id == x) ∘ (fun m =>
        if m.document_id == r.document_id then
          { m with hybrid_score := pymax m.hybrid_score (r.score * (6/5)), search_type := "hybrid" }
        else m)) = fun m : HybridResult => m.document_id == x := by
      funext m
      by_cases hm : m.document_id = r.document_id <;> simp [hm]
    rw [List.find?_map, hpf]
    cases hfind : acc.find? (fun m => m.document_id == x) with
    | none => simp
    | some y =>
        have hy : y.document_id = x := by simpa using List.find?_some hfind
        have hyr : ¬ (y.document_id = r.document_id) := by
          intro hc
          exact hrx (hc ▸ hy)
        simp [hyr]
  · rw [List.find?_append]
    have hone : (([{ r with hybrid_score := r.score }] : List HybridResult).find?
        (fun m => m.document_id == x)) = none := by
      simp [List.find?, h]
    rw [hone]
    cases acc.find? (fun m => m.document_id == x) <;> simp

theorem entry_semStep_new {acc : List HybridResult} {r : HybridResult} {x : String}
    (hacc : entryOf (fun m => m.document_id) x acc = none)
    (hx : (r.document_id == x) = true) :
    entryOf (fun m => m.document_id) x (hybridFuseSemStep acc r)
      = some { r with hybrid_score := r.score } := by
  unfold hybridFuseSemStep entryOf
  unfold entryOf at hacc
  have hrx : r.document_id = x := by simpa using hx
  have hany : (acc.any (fun m => m.document_id == r.document_id)) = false := by
    rw [List.any_eq_false]
    intro m hm
    have := List.find?_eq_none.mp hacc m hm
    simpa [hrx] using this
  rw [if_neg (by simp [hany])]
  rw [List.find?_append, hacc]
  simp [List.find?, hx]

theorem entry_semStep_upd {acc : List HybridResult} {r : HybridResult} {x : String}
    {m : HybridResult} (hacc : entryOf (fun m => m.document_id) x acc = some m)
    (hx : (r.document_id == x) = true) :
    entryOf (fun m => m.document_id) x (hybridFuseSemStep acc r)
      = some { m with hybrid_score := pymax m.hybrid_score (r.score * (6/5)), search_type := "hybrid" } := by
  unfold hybridFuseSemStep entryOf
  have hrx : r.document_id = x := by simpa using hx
  unfold entryOf at hacc
  have hm_id : m.document_id = x := by simpa using List.find?_some hacc
  have hany : (acc.any (fun m => m.document_id == r.document_id)) = true := by
    rw [List.any_eq_true]
    exact ⟨m, List.mem_of_find?_eq_some hacc, by simp [hm_id, hrx]⟩
  rw [if_pos (by simp [hany])]
  have hpf : ((fun m : HybridResult => m.document_id == x) ∘ (fun m =>
      if m.document_id == r.document_id then
        { m with hybrid_score := pymax m.hybrid_score (r.score * (6/5)), search_type := "hybrid" }
      else m)) = fun m : HybridResult => m.document_id == x := by
    funext y
    by_cases hy : y.document_id = r.document_id <;> simp [hy]
  rw [List.find?_map, hpf, hacc]
  simp [hm_id, hrx]

theorem entry_sem_foldl {x : String} :
    ∀ (qs : List HybridResult) (acc : List HybridResult),
      entryOf (fun m => m.document_id) x (qs.foldl hybridFuseSemStep acc)
        = semEntrySim (entryOf (fun m => m.document_id) x acc)
            (qs.filter (fun r => r.document_id == x)) := by
  intro qs
  induction qs with
  | nil => intro acc; simp [semEntrySim]
  | cons q qs ih =>
      intro acc
      simp only [List.foldl_cons, List.filter_cons]
      by_cases hx : (q.document_id == x) = true
      · rw [if_pos hx, ih]
        cases hacc : entryOf (fun m => m.document_id) x acc with
        | none => rw [entry_semStep_new hacc hx]; simp [semEntrySim]
        | some m => rw [entry_semStep_upd hacc hx]; simp [semEntrySim]
      · rw [if_neg hx, ih, entry_semStep_ne (by simpa using hx)]

/-- C6: score fusion of `HybridRAGService.hybrid_search`.  For a document id
returned exactly once by BM25 and not by semantic search, the fused entry
carries `hybrid_score = score * 1.5`; for an id returned only by semantic
search, the raw semantic score; for an id returned by both, the greater of
(1.5 × lexical, 1.2 × semantic) with `search_type = "hybrid"`; and the fused
list is ordered by non-increasing `hybrid_score` while holding exactly the
merged entries. -/
theorem hybrid_fusion_arithmetic (bm25_results semantic_results : List HybridResult)
    (x : String) :
    (∀ r, bm25_results.filter (fun m => m.document_id == x) = [r] →
      semantic_results.filter (fun m => m.document_id == x) = [] →
      entryOf (fun m => m.document_id) x (hybridCombine bm25_results semantic_results)
        = some { r with hybrid_score := r.score * (3/2) })
    ∧ (∀ q, bm25_results.filter (fun m => m.document_id == x) = [] →
      semantic_results.filter (fun m => m.document_id == x) = [q] →
      entryOf (fun m => m.document_id) x (hybridCombine bm25_results semantic_results)
        = some { q with hybrid_score := q.score })
    ∧ (∀ r q, bm25_results.filter (fun m => m.document_id == x) = [r] →
      semantic_results.filter (fun m => m.document_id == x) = [q] →
      entryOf (fun m => m.document_id) x (hybridCombine bm25_results semantic_results)
        = some { r with hybrid_score := pymax (r.score * (3/2)) (q.score * (6/5)), search_type := "hybrid" })
    ∧ List.Sorted (keyDescRel (fun m : HybridResult => m.hybrid_score))
        (hybridFuse bm25_results semantic_results)
    ∧ (∀ m, m ∈ hybridFuse bm25_results semantic_results
        ↔ m ∈ hybridCombine bm25_results semantic_results) := by
  refine ⟨?_, ?_, ?_, ?_, ?_⟩
  · intro r hb hs
    unfold hybridCombine
    rw [entry_sem_foldl, entry_bm25_foldl, hb, hs]
    rfl
  · intro q hb hs
    unfold hybridCombine
    rw [entry_sem_foldl, entry_bm25_foldl, hb, hs]
    rfl
  · intro r q hb hs
    unfold hybridCombine
    rw [entry_sem_foldl, entry_bm25_foldl, hb, hs]
    rfl
  · exact sorted_sortByDesc _
  · intro m
    exact mem_sortByDesc

/-- Witness for C6: a lexical-only hit of score 0.5 fuses to 0.75 and a
semantic-only hit of score 0.9 keeps 0.9, so the semantic hit outranks it;
the theorem is applied at this concrete pair of result lists. -/
theorem hybrid_fusion_arithmetic_witness :
    entryOf (fun m => m.document_id) "lex"
      (hybridCombine [⟨"lex", "L", 1/2, "bm25", 0⟩] [⟨"sem", "S", 9/10, "semantic", 0⟩])
      = some ⟨"lex", "L", 1/2, "bm25", (1/2 : ℚ) * (3/2)⟩
    ∧ entryOf (fun m => m.document_id) "sem"
      (hybridCombine [⟨"lex", "L", 1/2, "bm25", 0⟩] [⟨"sem", "S", 9/10, "semantic", 0⟩])
      = some ⟨"sem", "S", 9/10, "semantic", 9/10⟩
    ∧ hybridFuse [⟨"lex", "L", 1/2, "bm25", 0⟩] [⟨"sem", "S", 9/10, "semantic", 0⟩]
      = [⟨"sem", "S", 9/10, "semantic", 9/10⟩, ⟨"lex", "L", 1/2, "bm25", 3/4⟩] := by
  refine ⟨?_, ?_, ?_⟩
  · exact (hybrid_fusion_arithmetic [⟨"lex", "L", 1/2, "bm25", 0⟩]
      [⟨"sem", "S", 9/10, "semantic", 0⟩] "lex").1 ⟨"lex", "L", 1/2, "bm25", 0⟩
      (by simp [List.filter]) (by simp [List.filter])
  · exact (hybrid_fusion_arithmetic [⟨"lex", "L", 1/2, "bm25", 0⟩]
      [⟨"sem", "S", 9/10, "semantic", 0⟩] "sem").2.1 ⟨"sem", "S", 9/10, "semantic", 0⟩
      (by simp [List.filter]) (by simp [List.filter])
  · have hls : ¬ (("lex" : String) = "sem") := by decide
    have hsl : ¬ (("sem" : String) = "lex") := by decide
    norm_num [hybridFuse, hybridCombine, hybridFuseBM25Step, hybridFuseSemStep,
      sortByDesc, insDesc, hls, hsl, pymax]

/-- C9: empty query and empty corpus are non-error outcomes.  (a) A query
that tokenizes to nothing makes `search_bm25` return the empty list; (b) a
service indexed with an empty corpus returns empty lists from both the
lexical and the semantic branch and from `hybrid_search`; (c) when no
stored chunk reaches the similarity threshold, the in-memory vector search
returns the empty list — all as normal return values, never raising. -/
theorem empty_query_corpus_empty_results (st : HybridState)
    (semModel : Option (String → List ℚ))
    (semSearch : List ℚ → List (List ℚ) → ℕ → List (ℕ × ℚ))
    (cross_encoder : Option (String → String → ℚ))
    (bm25Lib : List (List String) → List String → List ℚ)
    (semModel2 : Option (List String → List (List ℚ)))
    (sim : List ℚ → List ℚ → ℚ) (store : List MemVec)
    (query : String) (query_embedding : List ℚ) (top_k : ℕ) (rerank : Bool)
    (filter_metadata : List (String × String)) (similarity_threshold : ℚ) :
    (bm25_tokenizer query = [] → search_bm25 st query top_k = [])
    ∧ (search_bm25 (index_documents bm25Lib semModel2 ⟨[], [], none, none⟩ [])
        query top_k = []
      ∧ search_semantic (index_documents bm25Lib semModel2 ⟨[], [], none, none⟩ [])
        semModel semSearch query top_k = []
      ∧ hybrid_search (index_documents bm25Lib semModel2 ⟨[], [], none, none⟩ [])
        semModel semSearch cross_encoder query top_k rerank = [])
    ∧ ((∀ v ∈ store, v.embedding.length = query_embedding.length →
          metadataMatches v.metadata filter_metadata = true →
          sim query_embedding v.embedding < similarity_threshold) →
      search_similar_documents sim store query_embedding top_k filter_metadata
        similarity_threshold = []) := by
  have hst0 : index_documents bm25Lib semModel2 ⟨[], [], none, none⟩ []
      = ⟨[], [], none, none⟩ := by
    cases semModel2 <;> simp [index_documents]
  refine ⟨?_, ?_, ?_⟩
  · intro htok
    cases hidx : st.bm25_index with
    | none => simp [search_bm25, hidx]
    | some gs => simp [search_bm25, hidx, htok]
  · rw [hst0]
    refine ⟨by simp [search_bm25], ?_, ?_⟩
    · cases semModel <;> simp [search_semantic]
    · have hsem : search_semantic ⟨[], [], none, none⟩ semModel semSearch query 15 = [] := by
        cases semModel <;> simp [search_semantic]
      have hfuse : hybridFuse [] [] = [] := by
        simp [hybridFuse, hybridCombine, sortByDesc]
      cases cross_encoder with
      | none => simp [hybrid_search, search_bm25, hsem, hfuse]
      | some c =>
          cases rerank <;>
            simp [hybrid_search, search_bm25, hsem, hfuse, rerank_results, sortByDesc]
  · intro hbelow
    unfold search_similar_documents
    have hnil : store.filterMap (fun v =>
        if v.embedding.length ≠ query_embedding.length then none
        else if ¬ metadataMatches v.metadata filter_metadata then none
        else
          let s := sim query_embedding v.embedding
          if similarity_threshold ≤ s then some (mkMemResult v s) else none) = [] := by
      rw [List.filterMap_eq_nil_iff]
      intro v hv
      by_cases hd : v.embedding.length ≠ query_embedding.length
      · simp [hd]
      · rw [if_neg hd]
        by_cases hm : metadataMatches v.metadata filter_metadata
        · rw [if_neg (by simpa using hm)]
          have hlt := hbelow v hv (not_not.mp hd) hm
          have : ¬ similarity_threshold ≤ sim query_embedding v.embedding := not_le.mpr hlt
          simp only [this, if_false]
        · simp [hm]
    rw [hnil]
    simp [sortByDesc]

/-- Witness for C9: the query `"ve de"` tokenizes to nothing (both words are
too short), so BM25 returns empty even with a live index; and a store whose
only chunk scores 0 under threshold 1 yields an empty search result. -/
theorem empty_query_corpus_empty_results_witness :
    search_bm25 ⟨["doc"], ["d1"], some (fun _ => [5]), none⟩ "ve de" 20 = []
    ∧ search_similar_documents (fun _ _ => 0) [⟨"a", [1], []⟩] [5] 3 [] 1 = [] := by
  constructor
  · exact (empty_query_corpus_empty_results ⟨["doc"], ["d1"], some (fun _ => [5]), none⟩
      none (fun _ _ _ => []) none (fun _ _ => []) none (fun _ _ => 0) [] "ve de" []
      20 false [] 1).1 (by decide)
  · exact (empty_query_corpus_empty_results ⟨["doc"], ["d1"], some (fun _ => [5]), none⟩
      none (fun _ _ _ => []) none (fun _ _ => []) none (fun _ _ => 0) [⟨"a", [1], []⟩]
      "ve de" [5] 3 false [] 1).2.2 (by intro v hv h1 h2; norm_num)

theorem resetIfCooledDown_invalidPure {now : ℕ} {st : KeyStatus}
    (h : invalidPure st) : resetIfCooledDown now st = st := by
  unfold resetIfCooledDown
  rw [h.2]
  simp

theorem resetIfCooledDown_idem (now : ℕ) (st : KeyStatus) :
    resetIfCooledDown now (resetIfCooledDown now st) = resetIfCooledDown now st := by
  unfold resetIfCooledDown
  cases hq : st.quota_exhausted with
  | false => simp [hq]
  | true =>
      cases hl : st.last_error_time with
      | none => simp [hq, hl]
      | some t =>
          by_cases hc : t + quota_reset_time < now
          · simp [hq, hl, hc]
          · simp [hq, hl, hc]

theorem rotateAux_success_available :
    ∀ (fuel : ℕ) (s : RotationState) (now : ℕ) (s2 : RotationState),
      rotateAux now fuel s = (s2, true) →
      ∃ st, s2.keys.get? s2.current_key_index = some st ∧ keyAvailable st = true := by
  intro fuel
  induction fuel with
  | zero => intro s now s2 h; cases h
  | succ fuel ih =>
      intro s now s2 h
      unfold rotateAux at h
      split at h
      · cases h
      · rename_i st hget
        split at h
        · rename_i hav
          cases h
          refine ⟨resetIfCooledDown now st, ?_, hav⟩
          simp only [List.get?_set, if_pos rfl, hget]
          rfl
        · exact ih _ now s2 h

theorem rotateAux_invalid_untouched :
    ∀ (fuel : ℕ) (s : RotationState) (now : ℕ) (i : ℕ) (st : KeyStatus),
      s.keys.get? i = some st → invalidPure st →
      (rotateAux now fuel s).1.keys.get? i = some st
      ∧ ((rotateAux now fuel s).2 = true →
          (rotateAux now fuel s).1.current_key_index ≠ i) := by
  intro fuel
  induction fuel with
  | zero => intro s now i st hget hinv; exact ⟨hget, by intro h; cases h⟩
  | succ fuel ih =>
      intro s now i st hget hinv
      unfold rotateAux
      split
      · exact ⟨hget, by intro h; cases h⟩
      · rename_i stidx hidxget
        split
        · rename_i hav
          by_cases hidx : (s.current_key_index + 1) % s.keys.length = i
          · exfalso
            rw [hidx, hget] at hidxget
            cases hidxget
            rw [resetIfCooledDown_invalidPure hinv] at hav
            unfold keyAvailable at hav
            rw [hinv.1] at hav
            simp at hav
          · refine ⟨?_, fun _ => hidx⟩
            show (s.keys.set _ _).get? i = some st
            rw [List.get?_set_ne _ _ hidx]
            exact hget
        · rename_i hav
          by_cases hidx : (s.current_key_index + 1) % s.keys.length = i
          · rw [hidx, hget] at hidxget
            cases hidxget
            apply ih
            · rw [hidx, resetIfCooledDown_invalidPure hinv,
                List.get?_set, if_pos rfl, hget]
              rfl
            · exact hinv
          · apply ih
            · rw [List.get?_set_ne _ _ hidx]
              exact hget
            · exact hinv

/-- C3 counterexample: one credential receives a 429 (quota exhausted) at
hour 0 and then a 401 (authentication failure) at hour 1, so it is marked
invalid while `quota_exhausted` stays set; a rotation scan at hour 26 —
past the 24-hour cool-down — resets it to active and selects it again,
contradicting the claim that an invalid credential is never used again. -/
theorem invalid_terminal_cex :
    (reportErrorAtCurrent (reportErrorAtCurrent ⟨[freshKeyStatus], 0⟩ 429 0) 401 1).keys.get? 0
      = some ⟨false, true, some 1, 2, 0⟩
    ∧ (rotate_to_next_key
        (reportErrorAtCurrent (reportErrorAtCurrent ⟨[freshKeyStatus], 0⟩ 429 0) 401 1) 26).2
      = true
    ∧ (rotate_to_next_key
        (reportErrorAtCurrent (reportErrorAtCurrent ⟨[freshKeyStatus], 0⟩ 429 0) 401 1) 26).1
      = ⟨[⟨true, false, some 1, 0, 0⟩], 0⟩ := by
  decide

/-- C3 amended: a credential marked invalid while not quota-exhausted (the
state a 401/403 produces on a key with no pending quota flag) is never
selected by any sequence of rotation scans, and the scans leave its status
unchanged; the lazy cool-down reset applies exactly to credentials whose
`quota_exhausted` flag is set — which can include a credential that also
failed authentication after exhausting its quota, and such a credential is
reactivated after the cool-down. -/
theorem invalid_terminal_amended (s : RotationState) (nows : List ℕ) (now : ℕ)
    (i : ℕ) (st : KeyStatus) (hget : s.keys.get? i = some st)
    (hinv : invalidPure st) :
    (rotateScans s nows).keys.get? i = some st
    ∧ ((rotate_to_next_key (rotateScans s nows) now).2 = true →
        (rotate_to_next_key (rotateScans s nows) now).1.current_key_index ≠ i) := by
  induction nows generalizing s with
  | nil =>
      refine ⟨hget, ?_⟩
      exact (rotateAux_invalid_untouched s.keys.length s now i st hget hinv).2
  | cons t ts ih =>
      have hstep := rotateAux_invalid_untouched s.keys.length s t i st hget hinv
      exact ih ((rotate_to_next_key s t).1) hstep.1

/-- Witness for C3: a pool with an invalid key (index 0) and a fresh key
(index 1); one scan at hour 30 followed by a scan at hour 50 never selects
index 0 and leaves its status untouched. -/
theorem invalid_terminal_amended_witness :
    (rotateScans ⟨[⟨false, false, some 1, 2, 0⟩, freshKeyStatus], 0⟩ [30]).keys.get? 0
      = some ⟨false, false, some 1, 2, 0⟩
    ∧ ((rotate_to_next_key
          (rotateScans ⟨[⟨false, false, some 1, 2, 0⟩, freshKeyStatus], 0⟩ [30]) 50).2 = true →
        (rotate_to_next_key
          (rotateScans ⟨[⟨false, false, some 1, 2, 0⟩, freshKeyStatus], 0⟩ [30]) 50).1.current_key_index
          ≠ 0) :=
  invalid_terminal_amended ⟨[⟨false, false, some 1, 2, 0⟩, freshKeyStatus], 0⟩ [30] 50 0
    ⟨false, false, some 1, 2, 0⟩ rfl ⟨rfl, rfl⟩

theorem rotateAux_all_unavailable :
    ∀ (fuel : ℕ) (s : RotationState) (now : ℕ),
      (∀ j stj, s.keys.get? j = some stj →
        keyAvailable (resetIfCooledDown now stj) = false) →
      (rotateAux now fuel s).2 = false := by
  intro fuel
  induction fuel with
  | zero => intro s now _; rfl
  | succ fuel ih =>
      intro s now hall
      unfold rotateAux
      split
      · rfl
      · rename_i st hget
        have hnav := hall _ st hget
        rw [if_neg (by simp [hnav])]
        apply ih
        intro j stj hj
        by_cases hji : (s.current_key_index + 1) % s.keys.length = j
        · subst hji
          rw [List.get?_set, if_pos rfl, hget] at hj
          simp at hj
          subst hj
          rw [resetIfCooledDown_idem]
          exact hnav
        · rw [List.get?_set_ne _ _ hji] at hj
          exact hall j stj hj

theorem rotateAux_success_of_reachable :
    ∀ (fuel : ℕ) (s : RotationState) (now : ℕ) (k : ℕ),
      k < fuel →
      (∃ st, s.keys.get? ((s.current_key_index + 1 + k) % s.keys.length) = some st ∧
        keyAvailable (resetIfCooledDown now st) = true) →
      (rotateAux now fuel s).2 = true := by
  intro fuel
  induction fuel with
  | zero => intro s now k hk _; omega
  | succ fuel ih =>
      intro s now k hk hreach
      obtain ⟨stj, hj, havj⟩ := hreach
      have hnlt : (s.current_key_index + 1 + k) % s.keys.length < s.keys.length := by
        rw [List.get?_eq_some] at hj
        exact hj.1
      have hn : 0 < s.keys.length := by omega
      unfold rotateAux
      split
      · rename_i hget
        exfalso
        rw [List.get?_eq_none] at hget
        have := Nat.mod_lt (s.current_key_index + 1) hn
        omega
      · rename_i st hget
        split
        · rfl
        · rename_i hav
          cases k with
          | zero =>
              exfalso
              apply hav
              have hj0 : s.keys.get? ((s.current_key_index + 1) % s.keys.length)
                  = some stj := by
                simpa using hj
              rw [hget] at hj0
              cases hj0
              exact havj
          | succ k2 =>
              apply ih _ now k2 (by omega)
              have hidxeq : ((s.current_key_index + 1) % s.keys.length + 1 + k2)
                  % s.keys.length = (s.current_key_index + 1 + (k2 + 1)) % s.keys.length := by
                rw [Nat.add_assoc, Nat.mod_add_mod]
                congr 1
                omega
              have hne : (s.current_key_index + 1) % s.keys.length
                  ≠ ((s.current_key_index + 1) % s.keys.length + 1 + k2) % s.keys.length := by
                intro hcontra
                rw [hidxeq] at hcontra
                rw [← hcontra, hget] at hj
                cases hj
                exact hav havj
              refine ⟨stj, ?_, havj⟩
              show (s.keys.set _ _).get? _ = some stj
              rw [List.length_set, hidxeq, List.get?_set_ne _ _ ?_]
              · exact hj
              · rw [hidxeq] at hne
                exact hne

/-- C4: rotation liveness and cool-down recovery.  (a) When every credential
is unavailable at scan time even after the lazy cool-down check, the scan —
which advances at most `len(api_keys)` times — signals failure; (b) when
some credential is quota-exhausted with a last error strictly older than the
24-hour window, the scan succeeds and leaves the current index on an
available credential.  The reset happens inside the scan itself (lazily),
not in any background process. -/
theorem rotation_liveness_cooldown (s : RotationState) (now : ℕ) :
    ((∀ j stj, s.keys.get? j = some stj →
        keyAvailable (resetIfCooledDown now stj) = false) →
      (rotate_to_next_key s now).2 = false)
    ∧ (∀ i st t, s.keys.get? i = some st →
        st.quota_exhausted = true → st.last_error_time = some t →
        t + quota_reset_time < now →
        (rotate_to_next_key s now).2 = true
        ∧ ∃ st2, (rotate_to_next_key s now).1.keys.get?
            ((rotate_to_next_key s now).1.current_key_index) = some st2
            ∧ keyAvailable st2 = true) := by
  constructor
  · intro hall
    exact rotateAux_all_unavailable s.keys.length s now hall
  · intro i st t hget hq hl hc
    have hilt : i < s.keys.length := by
      rw [List.get?_eq_some] at hget
      exact hget.1
    have hn : 0 < s.keys.length := by omega
    have havst : keyAvailable (resetIfCooledDown now st) = true := by
      simp [resetIfCooledDown, keyAvailable, hq, hl, hc]
    have hdlt : (s.current_key_index + 1) % s.keys.length < s.keys.length :=
      Nat.mod_lt _ hn
    have hstep1 : (s.current_key_index + 1 +
        ((i + s.keys.length - (s.current_key_index + 1) % s.keys.length) % s.keys.length))
          % s.keys.length
        = ((s.current_key_index + 1) % s.keys.length +
            ((i + s.keys.length - (s.current_key_index + 1) % s.keys.length) % s.keys.length))
          % s.keys.length := (Nat.mod_add_mod _ _ _).symm
    have hstep2 : ((s.current_key_index + 1) % s.keys.length +
        ((i + s.keys.length - (s.current_key_index + 1) % s.keys.length) % s.keys.length))
          % s.keys.length
        = ((s.current_key_index + 1) % s.keys.length +
            (i + s.keys.length - (s.current_key_index + 1) % s.keys.length))
          % s.keys.length := Nat.add_mod_mod _ _ _
    have hstep3 : (s.current_key_index + 1) % s.keys.length +
        (i + s.keys.length - (s.current_key_index + 1) % s.keys.length)
        = i + s.keys.length := by omega
    have hk : (s.current_key_index + 1 +
        ((i + s.keys.length - (s.current_key_index + 1) % s.keys.length) % s.keys.length))
          % s.keys.length = i := by
      rw [hstep1, hstep2, hstep3, Nat.add_mod_right]
      exact Nat.mod_eq_of_lt hilt
    have hsucc : (rotate_to_next_key s now).2 = true := by
      apply rotateAux_success_of_reachable s.keys.length s now
        ((i + s.keys.length - (s.current_key_index + 1) % s.keys.length) % s.keys.length)
        (Nat.mod_lt _ hn)
      refine ⟨st, ?_, havst⟩
      rw [hk]
      exact hget
    refine ⟨hsucc, ?_⟩
    have heq : rotateAux now s.keys.length s = ((rotate_to_next_key s now).1, true) := by
      rw [← hsucc]
      exact Prod.mk.eta.symm
    exact rotateAux_success_available s.keys.length s now _ heq

/-- Witness for C4: a single quota-exhausted credential (last error at hour
0).  A scan at hour 10 — inside the window — fails; a scan at hour 25 —
strictly past the 24-hour window — succeeds. -/
theorem rotation_liveness_cooldown_witness :
    (rotate_to_next_key ⟨[⟨false, true, some 0, 1, 0⟩], 0⟩ 10).2 = false
    ∧ (rotate_to_next_key ⟨[⟨false, true, some 0, 1, 0⟩], 0⟩ 25).2 = true := by
  constructor
  · apply (rotation_liveness_cooldown ⟨[⟨false, true, some 0, 1, 0⟩], 0⟩ 10).1
    intro j stj hj
    cases j with
    | zero =>
        simp at hj
        subst hj
        decide
    | succ m => simp at hj
  · exact ((rotation_liveness_cooldown ⟨[⟨false, true, some 0, 1, 0⟩], 0⟩ 25).2
      0 ⟨false, true, some 0, 1, 0⟩ 0 rfl rfl rfl (by decide)).1

/-- C2 counterexample: a state whose in-memory store holds only
3072-dimensional (Gemini) vectors while the active provider recorded by the
last batch write is the sentence transformer.  The claimed precedence
(store signal first) would force Gemini, but `create_single_embedding`
checks the active provider first and uses the sentence transformer. -/
theorem query_routing_precedence_cex :
    create_single_embedding_route
      ⟨some "sentence_transformers", true, true, none, [3072, 3072, 3072]⟩
      = QueryRoute.activeST
    ∧ pyMaxByCount (dimensionCounts [3072, 3072, 3072]) = some (3072, 3)
    ∧ QueryRoute.activeST ≠ QueryRoute.memMajorityGemini := by
  refine ⟨?_, ?_, ?_⟩ <;> decide

/-- C2 amended: `create_single_embedding` selects the provider in this
order: (1) the `active_provider` recorded by the last batch write (when its
model attribute exists); (2) only otherwise, the vector-store signals — the
ChromaDB document-count heuristic (more than 3500 documents forces the
sentence transformer), then the in-memory majority dimension (384 forces
the sentence transformer, 3072 forces Gemini); (3) only otherwise, the
default `create_embeddings` provider chain. -/
theorem query_routing_precedence_amended (s : QueryRouteState) (n : ℕ) (md : ℕ × ℕ) :
    ((s.active_provider == some "sentence_transformers") = true →
      s.hasSentenceTransformer = true →
      create_single_embedding_route s = QueryRoute.activeST)
    ∧ ((s.active_provider == some "gemini") = true → s.hasGeminiClient = true →
      create_single_embedding_route s = QueryRoute.activeGemini)
    ∧ (¬ (s.active_provider = some "sentence_transformers" ∧ s.hasSentenceTransformer = true) →
      ¬ (s.active_provider = some "gemini" ∧ s.hasGeminiClient = true) →
      s.chromaCount = some n → 3500 < n → s.hasSentenceTransformer = true →
      create_single_embedding_route s = QueryRoute.chromaForcedST)
    ∧ (¬ (s.active_provider = some "sentence_transformers" ∧ s.hasSentenceTransformer = true) →
      ¬ (s.active_provider = some "gemini" ∧ s.hasGeminiClient = true) →
      s.chromaCount = none →
      pyMaxByCount (dimensionCounts s.memoryDims) = some md →
      s.memoryDims ≠ [] →
      ((md.1 = 384 → s.hasSentenceTransformer = true →
        create_single_embedding_route s = QueryRoute.memMajorityST)
      ∧ (md.1 = 3072 → s.hasGeminiClient = true →
        create_single_embedding_route s = QueryRoute.memMajorityGemini)))
    ∧ (¬ (s.active_provider = some "sentence_transformers" ∧ s.hasSentenceTransformer = true) →
      ¬ (s.active_provider = some "gemini" ∧ s.hasGeminiClient = true) →
      s.chromaCount = none → s.memoryDims = [] →
      create_single_embedding_route s = QueryRoute.defaultProvider) := by
  refine ⟨?_, ?_, ?_, ?_, ?_⟩
  · intro h1 h2
    simp only [create_single_embedding_route]
    rw [if_pos ⟨h1, h2⟩]
  · intro h1 h2
    have hne : ¬ ((s.active_provider == some "sentence_transformers") = true
        ∧ s.hasSentenceTransformer = true) := by
      rintro ⟨ha, _⟩
      have h1p : s.active_provider = some "gemini" := by simpa using h1
      rw [h1p] at ha
      simp at ha
    simp only [create_single_embedding_route]
    rw [if_neg hne, if_pos ⟨h1, h2⟩]
  · intro hno1 hno2 hch h35 hst
    have hne1 : ¬ ((s.active_provider == some "sentence_transformers") = true
        ∧ s.hasSentenceTransformer = true) := by
      rintro ⟨ha, hb⟩
      exact hno1 ⟨by simpa using ha, hb⟩
    have hne2 : ¬ ((s.active_provider == some "gemini") = true
        ∧ s.hasGeminiClient = true) := by
      rintro ⟨ha, hb⟩
      exact hno2 ⟨by simpa using ha, hb⟩
    simp only [create_single_embedding_route]
    rw [if_neg hne1, if_neg hne2, hch]
    simp [h35, hst]
  · intro hno1 hno2 hch hmaj hmem
    have hne1 : ¬ ((s.active_provider == some "sentence_transformers") = true
        ∧ s.hasSentenceTransformer = true) := by
      rintro ⟨ha, hb⟩
      exact hno1 ⟨by simpa using ha, hb⟩
    have hne2 : ¬ ((s.active_provider == some "gemini") = true
        ∧ s.hasGeminiClient = true) := by
      rintro ⟨ha, hb⟩
      exact hno2 ⟨by simpa using ha, hb⟩
    constructor
    · intro hd hst
      simp only [create_single_embedding_route]
      rw [if_neg hne1, if_neg hne2, hch]
      simp only [Bool.false_eq_true, if_false]
      rw [if_pos (by simpa using hmem)]
      rw [hmaj]
      simp [hd, hst]
    · intro hd hg
      simp only [create_single_embedding_route]
      rw [if_neg hne1, if_neg hne2, hch]
      simp only [Bool.false_eq_true, if_false]
      rw [if_pos (by simpa using hmem)]
      rw [hmaj]
      simp [hd, hg]
  · intro hno1 hno2 hch hmem
    have hne1 : ¬ ((s.active_provider == some "sentence_transformers") = true
        ∧ s.hasSentenceTransformer = true) := by
      rintro ⟨ha, hb⟩
      exact hno1 ⟨by simpa using ha, hb⟩
    have hne2 : ¬ ((s.active_provider == some "gemini") = true
        ∧ s.hasGeminiClient = true) := by
      rintro ⟨ha, hb⟩
      exact hno2 ⟨by simpa using ha, hb⟩
    simp only [create_single_embedding_route]
    rw [if_neg hne1, if_neg hne2, hch]
    simp [hmem]

/-- Witness for C2: with no active provider and a 3072-majority in-memory
store, the route forces Gemini; with the sentence transformer recorded as
active, the route follows it regardless of the store. -/
theorem query_routing_precedence_amended_witness :
    create_single_embedding_route ⟨none, true, true, none, [3072, 3072, 384]⟩
      = QueryRoute.memMajorityGemini
    ∧ create_single_embedding_route
        ⟨some "sentence_transformers", true, true, none, [3072, 3072, 384]⟩
      = QueryRoute.activeST := by
  constructor
  · exact ((query_routing_precedence_amended ⟨none, true, true, none, [3072, 3072, 384]⟩
      0 (3072, 2)).2.2.2.1 (by simp) (by simp) rfl (by decide) (by decide)).2 rfl rfl
  · exact (query_routing_precedence_amended
      ⟨some "sentence_transformers", true, true, none, [3072, 3072, 384]⟩ 0 (0, 0)).1
      (by decide) rfl

theorem createEmbeddingsTail_all_failed (cfg : EmbConfig) (run : ProviderOutcomes)
    (sha256hex : String → String) (texts : List String)
    (hst : run.st = none) (hg : run.gemini = none) (ho : run.openai = none) :
    createEmbeddingsTail cfg run sha256hex texts
      = texts.map (create_fallback_embedding sha256hex cfg.dimensions) := by
  unfold createEmbeddingsTail
  rw [hst, hg, ho]
  have hnone : (if (cfg.primary_provider == "sentence_transformers")
        ∧ cfg.hasSentenceTransformer then (none : Option (List (List ℚ)))
      else if ((cfg.primary_provider == "gemini") ∨ (cfg.primary_provider == "gemini_rotation"))
          ∧ cfg.hasGeminiClient then none
      else if (cfg.primary_provider == "openai") ∧ cfg.hasOpenAIClient then none
      else none) = none := by
    split
    · rfl
    · split
      · rfl
      · split <;> rfl
  rw [hnone]
  have hnone2 : (if cfg.hasSentenceTransformer then (none : Option (List (List ℚ)))
      else none) = none := by
    split <;> rfl
  rw [hnone2]

/-- C8: embedding creation never fails outright.  (a) When every provider
call fails — the rotation service raises or reports exhaustion and every
other provider raises — `create_embeddings` still returns the hash fallback
vector for every input text; (b) whenever the providers that do answer
return one vector per text, `create_embeddings` returns exactly one vector
per input text; (c) the hash fallback vector always has exactly the
configured number of dimensions; (d) the fallback vector is a function of
the text's digest alone, so equal digests give equal vectors (and the same
text always yields the same vector). -/
theorem embeddings_never_fail (cfg : EmbConfig) (run : ProviderOutcomes)
    (sha256hex : String → String) (texts : List String) :
    ((run.rotation = RotOutcome.raised ∨ run.rotation = RotOutcome.exhausted) →
      run.st = none → run.gemini = none → run.openai = none →
      create_embeddings cfg run sha256hex texts
        = texts.map (create_fallback_embedding sha256hex cfg.dimensions))
    ∧ ((∀ embs, run.rotation = RotOutcome.ok embs → embs.length = texts.length) →
      (∀ l, run.st = some l → l.length = texts.length) →
      (∀ l, run.gemini = some l → l.length = texts.length) →
      (∀ l, run.openai = some l → l.length = texts.length) →
      (create_embeddings cfg run sha256hex texts).length = texts.length)
    ∧ (∀ text, (create_fallback_embedding sha256hex cfg.dimensions text).length
        = cfg.dimensions)
    ∧ (∀ (sha2 : String → String) (t1 t2 : String), sha256hex t1 = sha2 t2 →
      create_fallback_embedding sha256hex cfg.dimensions t1
        = create_fallback_embedding sha2 cfg.dimensions t2) := by
  refine ⟨?_, ?_, ?_, ?_⟩
  · intro hrot hst hg ho
    have htail := createEmbeddingsTail_all_failed cfg run sha256hex texts hst hg ho
    unfold create_embeddings
    split
    · rcases hrot with hr | hr
      · rw [hr]
        exact htail
      · rw [hr]
        have hnone2 : (if cfg.hasSentenceTransformer then run.st else none) = none := by
          rw [hst]
          split <;> rfl
        rw [hnone2]
        exact htail
    · exact htail
  · intro hr hstl hgl hol
    have htail : (createEmbeddingsTail cfg run sha256hex texts).length = texts.length := by
      unfold createEmbeddingsTail
      split
      · rename_i embs heq
        split at heq
        · exact hstl _ heq
        · split at heq
          · exact hgl _ heq
          · split at heq
            · exact hol _ heq
            · cases heq
      · split
        · rename_i embs heq2
          split at heq2
          · exact hstl _ heq2
          · cases heq2
        · simp
    unfold create_embeddings
    split
    · split
      · rename_i embs heqr
        by_cases he : embs.isEmpty
        · rw [if_neg (by simpa using he)]
          split
          · rename_i l heq2
            split at heq2
            · exact hstl _ heq2
            · cases heq2
          · exact htail
        · rw [if_pos he]
          exact hr embs heqr
      · split
        · rename_i l heq2
          split at heq2
          · exact hstl _ heq2
          · cases heq2
        · exact htail
      · exact htail
    · exact htail
  · intro text
    unfold create_fallback_embedding
    split
    · rename_i hlt
      rw [List.length_append, List.length_replicate]
      omega
    · rename_i hge
      rw [List.length_take]
      have hd : cfg.dimensions ≤ (fallbackVector sha256hex text).length := by omega
      exact min_eq_left hd
  · intro sha2 t1 t2 hdig
    have hv : fallbackVector sha256hex t1 = fallbackVector sha2 t2 := by
      unfold fallbackVector
      rw [hdig]
    unfold create_fallback_embedding
    rw [hv]

/-- Witness for C8: with rotation exhausted and every other provider
raising, the single input text receives exactly the hash fallback vector,
and that vector has the configured 5 dimensions. -/
theorem embeddings_never_fail_witness :
    create_embeddings ⟨"gemini_rotation", true, false, false, false, 5⟩
      ⟨true, RotOutcome.exhausted, none, none, none⟩ (fun _ => "00ff00ff") ["x"]
      = ["x"].map (create_fallback_embedding (fun _ => "00ff00ff") 5)
    ∧ (create_fallback_embedding (fun _ => "00ff00ff") 5 "x").length = 5 := by
  constructor
  · exact (embeddings_never_fail ⟨"gemini_rotation", true, false, false, false, 5⟩
      ⟨true, RotOutcome.exhausted, none, none, none⟩ (fun _ => "00ff00ff") ["x"]).1
      (Or.inr rfl) rfl rfl rfl
  · exact (embeddings_never_fail ⟨"gemini_rotation", true, false, false, false, 5⟩
      ⟨true, RotOutcome.exhausted, none, none, none⟩ (fun _ => "00ff00ff") ["x"]).2.2.1 "x"

/-- A `delete_documents_by_source` call on a state with no matching chunk in
either layer leaves the state unchanged and reports `False`. -/
theorem delete_noop (st : VectorStoreState) (source_filename : String)
    (hm : ∀ v ∈ st.memory, (metaGet v.metadata "source" == some source_filename) = false)
    (hc : ∀ v ∈ st.chroma.getD [], (chromaSource v == source_filename) = false) :
    delete_documents_by_source st source_filename = (st, false) := by
  obtain ⟨chroma, memory⟩ := st
  have hmf : memory.filter
      (fun v => ¬ (metaGet v.metadata "source" == some source_filename)) = memory := by
    apply List.filter_eq_self.mpr
    intro v hv
    simp [hm v hv]
  have hcntm : memory.countP
      (fun v => metaGet v.metadata "source" == some source_filename) = 0 := by
    apply List.countP_eq_zero.mpr
    intro v hv
    simp [hm v hv]
  cases chroma with
  | none =>
      unfold delete_documents_by_source deleteBySourceCount
      simp only [hmf, hcntm]
      rfl
  | some docs =>
      have hcf : docs.filter (fun v => ¬ (chromaSource v == source_filename)) = docs := by
        apply List.filter_eq_self.mpr
        intro v hv
        simp [hc v (by simpa using hv)]
      have hcntc : docs.countP (fun v => chromaSource v == source_filename) = 0 := by
        apply List.countP_eq_zero.mpr
        intro v hv
        simp [hc v (by simpa using hv)]
      unfold delete_documents_by_source deleteBySourceCount
      simp only [hmf, hcntm, hcf, hcntc]
      rfl

/-- C7 counterexample: `delete_documents_by_source` returns a boolean, not
the number of removed chunks — two stores from which it removes 1 and 2
chunks respectively get the identical return value `True`, so the return
value cannot be the removal count; and the second call on the same source
returns `False`, not the number 0. -/
theorem delete_by_source_count_cex :
    (delete_documents_by_source ⟨none, [⟨"a", [], [("source", "doc.txt")]⟩]⟩ "doc.txt").2
      = (delete_documents_by_source
          ⟨none, [⟨"a", [], [("source", "doc.txt")]⟩,
                  ⟨"b", [], [("source", "doc.txt")]⟩]⟩ "doc.txt").2
    ∧ deleteBySourceCount ⟨none, [⟨"a", [], [("source", "doc.txt")]⟩]⟩ "doc.txt" = 1
    ∧ deleteBySourceCount ⟨none, [⟨"a", [], [("source", "doc.txt")]⟩,
        ⟨"b", [], [("source", "doc.txt")]⟩]⟩ "doc.txt" = 2
    ∧ (1 : ℕ) ≠ 2
    ∧ (delete_documents_by_source
        (delete_documents_by_source ⟨none, [⟨"a", [], [("source", "doc.txt")]⟩]⟩ "doc.txt").1
        "doc.txt").2 = false := by
  refine ⟨?_, ?_, ?_, ?_, ?_⟩ <;> decide

/-- C7 amended: `delete_documents_by_source` removes every chunk whose
source matches from both the ChromaDB layer and the in-memory mirror and
returns `True` exactly when at least one chunk was removed (its per-layer
counts summed); after the call no matching chunk remains in either layer,
and a second call with the same source removes nothing and returns
`False`. -/
theorem delete_by_source_amended (st : VectorStoreState) (source_filename : String) :
    ((delete_documents_by_source st source_filename).2
      = decide (0 < deleteBySourceCount st source_filename))
    ∧ (∀ v ∈ (delete_documents_by_source st source_filename).1.memory,
        ¬ metaGet v.metadata "source" = some source_filename)
    ∧ (∀ v ∈ (delete_documents_by_source st source_filename).1.chroma.getD [],
        ¬ chromaSource v = source_filename)
    ∧ delete_documents_by_source (delete_documents_by_source st source_filename).1
        source_filename
      = ((delete_documents_by_source st source_filename).1, false) := by
  have hmem : ∀ v ∈ (delete_documents_by_source st source_filename).1.memory,
      (metaGet v.metadata "source" == some source_filename) = false := by
    intro v hv
    unfold delete_documents_by_source at hv
    simp only [List.mem_filter] at hv
    simpa using hv.2
  have hchr : ∀ v ∈ (delete_documents_by_source st source_filename).1.chroma.getD [],
      (chromaSource v == source_filename) = false := by
    intro v hv
    unfold delete_documents_by_source at hv
    cases hch : st.chroma with
    | none => rw [hch] at hv; simp at hv
    | some docs =>
        rw [hch] at hv
        simp only [Option.getD] at hv
        simp only [List.mem_filter] at hv
        simpa using hv.2
  refine ⟨rfl, ?_, ?_, ?_⟩
  · intro v hv
    simpa using hmem v hv
  · intro v hv
    simpa using hchr v hv
  · exact delete_noop _ source_filename hmem hchr

/-- Witness for C7: deleting `"doc.txt"` twice from a two-chunk store — the
second call leaves the state unchanged and returns `False`. -/
theorem delete_by_source_amended_witness :
    delete_documents_by_source
      (delete_documents_by_source ⟨none, [⟨"a", [], [("source", "doc.txt")]⟩,
        ⟨"b", [], [("source", "doc.txt")]⟩]⟩ "doc.txt").1 "doc.txt"
      = ((delete_documents_by_source ⟨none, [⟨"a", [], [("source", "doc.txt")]⟩,
          ⟨"b", [], [("source", "doc.txt")]⟩]⟩ "doc.txt").1, false) :=
  (delete_by_source_amended ⟨none, [⟨"a", [], [("source", "doc.txt")]⟩,
      ⟨"b", [], [("source", "doc.txt")]⟩]⟩ "doc.txt").2.2.2

end RAG
